import Mathlib

/-!
Shallow embedding of `CompressedVectorWriterImpl.cpp` (libE57Format): the
compressed-vector writer that packs per-field encoder output into data
packets, emits one index packet, and patches the section header on close.

Sizes and offsets are modelled as `Nat`.  The C++ `size_t` subtractions
`DATA_PACKET_MAX - sizeof(DataPacketHeader) - N*2` and
`cPacketMaxPayloadBytes - 1` are modelled with truncated `Nat` subtraction;
theorems that depend on the value carry explicit no-underflow hypotheses so
that truncated and exact subtraction agree (for larger stream counts the
C++ code overruns its 64 KiB packet buffer and has no defined behaviour).
The C++ single-precision computation `cFractionToSend =
(cPacketMaxPayloadBytes - 1) / float(cTotalOutput)` and
`floor(cFractionToSend * float(outputAvailable))` is modelled bit-exactly
as IEEE-754 binary32 arithmetic (round to nearest, ties to even): every
operand conversion and every operation rounds once, implemented on dyadic
pairs `(m, e)` of value `m / 2^e` with the significand scaled into
`[2^23, 2^24]` (`fl32Pair`).  Exponents are unbounded — no overflow or
subnormal handling — which agrees with binary32 on the program's
reachable range (quotients and products of `size_t`-sized values, far
inside the normal range).
-/

deriving instance DecidableEq for Except

namespace e57

/-- Error codes surfaced by the writer (from `E57Exception` error kinds),
plus `outOfFuel`, a modelling artifact marking exhaustion of the explicit
fuel used for the source's `while` loops; it corresponds to no source
error and a run that ends in `outOfFuel` is never counted as successful. -/
inductive Err where
  | badAPIArgument
  | buffersNotCompatible
  | writerNotOpen
  | internalError
  | outOfFuel
  deriving DecidableEq, Repr

/-- Modelled from the spec: `DATA_PACKET_MAX` = 65 536 (Packet.h is outside
the provided sources; spec §3, §6: "no packet exceeds DATA_PACKET_MAX = 65 536"). -/
def DATA_PACKET_MAX : Nat := 65536

/-- Modelled from the spec: `sizeof(DataPacketHeader)` = 6 (spec §6:
"DataPacketHeader (6 bytes)"). -/
def dataPacketHeaderSize : Nat := 6

/-- Modelled from the spec: `sizeof(IndexPacketHeader)` = 16 (spec §6). -/
def indexPacketHeaderSize : Nat := 16

/-- Modelled from the spec: `sizeof(IndexPacket::Entry)` = 16 (spec §6:
"IndexEntry (16 bytes each)"). -/
def indexEntrySize : Nat := 16

/-- Modelled from the spec: `sizeof(CompressedVectorSectionHeader)` = 32
(spec §6: 32-byte layout table). -/
def sectionHeaderSize : Nat := 32

/-- `E57_TARGET_PACKET_SIZE = DATA_PACKET_MAX * 3 / 4` (line 354). -/
def E57_TARGET_PACKET_SIZE : Nat := DATA_PACKET_MAX * 3 / 4

/-- `cPacketMaxPayloadBytes = DATA_PACKET_MAX - sizeof(DataPacketHeader)
- cNumByteStreams * sizeof(uint16_t)` (lines 441-442). -/
def cPacketMaxPayloadBytes (numByteStreams : Nat) : Nat :=
  DATA_PACKET_MAX - dataPacketHeaderSize - numByteStreams * 2

/-- Round `num / den` to the nearest integer, ties to even — the rounding
applied to a binary32 significand. -/
def roundNE (num den : Nat) : Nat :=
  if 2 * (num % den) < den then num / den
  else if den < 2 * (num % den) then num / den + 1
  else if (num / den) % 2 = 0 then num / den else num / den + 1

/-- `⌊log₂ n⌋` with explicit structural fuel (`lg2` passes `n` itself,
which always suffices), so that concrete instances reduce in the
kernel. -/
def lg2fuel : Nat → Nat → Nat
  | 0, _ => 0
  | fuel + 1, n => if 2 ≤ n then lg2fuel fuel (n / 2) + 1 else 0

def lg2 (n : Nat) : Nat := lg2fuel n n

/-- `⌈log₂ m⌉`. -/
def clg2 (m : Nat) : Nat := if m ≤ 1 then 0 else lg2 (m - 1) + 1

/-- IEEE-754 binary32 rounding (round to nearest, ties to even) of the
nonnegative rational `num / den`, returned as a dyadic pair `(m, e)` of
value `m / 2^e`: the significand is scaled into `[2^23, 2^24]` and rounded
with `roundNE`.  The exponent range is unbounded (no overflow or subnormal
handling), which agrees with binary32 on the program's reachable range. -/
def fl32Pair (num den : Nat) : Nat × Nat :=
  if num = 0 then (0, 0)
  else if den ≤ num then
    if lg2 (num / den) ≤ 23 then
      (roundNE (num * 2 ^ (23 - lg2 (num / den))) den, 23 - lg2 (num / den))
    else
      (roundNE num (den * 2 ^ (lg2 (num / den) - 23)) * 2 ^ (lg2 (num / den) - 23), 0)
  else
    (roundNE (num * 2 ^ (23 + clg2 ((den + num - 1) / num))) den,
      23 + clg2 ((den + num - 1) / num))

/-- The rational value of a dyadic pair (proof-side semantics of a
binary32 quantity). -/
def pairQ (p : Nat × Nat) : ℚ := (p.1 : ℚ) / 2 ^ p.2

/-- The proportional branch of the per-stream count (lines 465-473):
`cFractionToSend = float(cPacketMaxPayloadBytes - 1) / float(cTotalOutput)`
(both operands converted to binary32, then one binary32 division), and
`count = unsigned(floor(cFractionToSend * float(outputAvailable)))` (one
conversion, one binary32 multiplication, then an exact floor). -/
def streamCountProp (maxPayload totalOutput avail : Nat) : Nat :=
  let fM := fl32Pair (maxPayload - 1) 1
  let fT := fl32Pair totalOutput 1
  let fq := fl32Pair (fM.1 * 2 ^ fT.2) (fT.1 * 2 ^ fM.2)
  let fa := fl32Pair avail 1
  let p := fl32Pair (fq.1 * fa.1) (2 ^ (fq.2 + fa.2))
  p.1 / 2 ^ p.2

/-- Per-stream byte count chosen by `packetWrite` (lines 454-475): if the
total output fits in one packet, drain each stream fully (no float
arithmetic); otherwise send the proportional single-precision share. -/
def streamCount (maxPayload totalOutput avail : Nat) : Nat :=
  if totalOutput < maxPayload then avail
  else streamCountProp maxPayload totalOutput avail

/-- The per-stream counts for a list of `outputAvailable` values. -/
def packetCounts (numByteStreams totalOutput : Nat) (avails : List Nat) : List Nat :=
  avails.map (streamCount (cPacketMaxPayloadBytes numByteStreams) totalOutput)

/-- The `bytestreamBufferLength` values actually stored in the packet:
`bsbLength[i] = static_cast<uint16_t>(count.at(i))` (line 514). -/
def bsbLengths (counts : List Nat) : List Nat :=
  counts.map (fun c => c % 65536)

/-- The zero-padding loop of `packetWrite` (lines 566-580), with an
explicit iteration bound: while the length is not a multiple of 4, append
a zero byte, but fail with `ErrorInternal` if the write position `p` has
reached `&packet[DATA_PACKET_MAX - 1]`.  The loop appends at most 3 bytes
before reaching a multiple of 4, so a bound of 4 iterations is never hit
(see `padPacketFuel_enough`). -/
def padPacketFuel : Nat → Nat → Except Err Nat
  | 0, _ => .error .outOfFuel
  | fuel + 1, packetLength =>
    if packetLength % 4 = 0 then .ok packetLength
    else if DATA_PACKET_MAX - 1 ≤ packetLength then .error .internalError
    else padPacketFuel fuel (packetLength + 1)

/-- The padding loop of `packetWrite`, entered at the unpadded length. -/
def padPacket (packetLength : Nat) : Except Err Nat :=
  padPacketFuel 4 packetLength

/-- The padding loop of `packetWriteZeroRecords` (lines 636-641): same
padding, no bounds guard; it starts at `sizeof(DataPacketHeader)` and
appends at most 3 bytes. -/
def padZeroRecordsFuel : Nat → Nat → Nat
  | 0, packetLength => packetLength
  | fuel + 1, packetLength =>
    if packetLength % 4 = 0 then packetLength
    else padZeroRecordsFuel fuel (packetLength + 1)

/-- The `packetWriteZeroRecords` padding loop, entered at the unpadded
length. -/
def padZeroRecords (packetLength : Nat) : Nat :=
  padZeroRecordsFuel 4 packetLength

/-- A caller-supplied source buffer: path name, capacity, and the fields
compared by `SourceDestBufferImpl::checkCompatible` — the latter Modelled
from the spec (§4.1: "pairwise-compatible ... same type, same stride
semantics"; SourceDestBufferImpl.cpp is outside the provided sources). -/
structure SDBuf where
  pathName : String
  capacity : Nat
  typeTag : Nat
  stride : Nat
  deriving DecidableEq, Repr

/-- Modelled from the spec: `SourceDestBufferImpl::checkCompatible` fails
unless the new buffer has the same type and stride semantics (§4.1). -/
def checkCompatible (oldBuf newBuf : SDBuf) : Bool :=
  oldBuf.typeTag == newBuf.typeTag && oldBuf.stride == newBuf.stride

/-- Modelled from the spec: the per-bytestream encoder contract (§3;
Encoder.cpp is outside the provided sources).  `avail` is the byte count
reported by `outputAvailable()`; `reg` is the partial register state
committed to the output queue by `registerFlushToOutput()`;
`bytesPerRecord` is an abstract production rate: `processRecords(k)`
advances `currentRecordIndex` by `k` and queues `k * bytesPerRecord`
output bytes. -/
structure EncState where
  bytestreamNumber : Nat
  currentRecordIndex : Nat
  avail : Nat
  reg : Nat
  bytesPerRecord : Nat
  deriving DecidableEq, Repr

/-- The section header fields patched back at close (spec §6). -/
structure SectionHeaderRec where
  sectionLogicalLength : Nat
  dataPhysicalOffset : Nat
  indexPhysicalOffset : Nat
  deriving DecidableEq, Repr

/-- A record of one file write performed by the writer: which packet kind
was written, at which logical/physical offset, and how long it was. -/
inductive WriteRec where
  | dataPacket (logicalOffset physicalOffset length : Nat) (bsb : List Nat)
  | indexPacket (logicalOffset physicalOffset length chunkPhysicalOffset : Nat)
  | sectionHeader (logicalOffset : Nat) (hdr : SectionHeaderRec)
  deriving DecidableEq, Repr

/-- Modelled from the spec: the host file contract (§6): an allocation
frontier `unusedLogicalStart`, a logical-to-physical translation `l2p`,
the live-writer counter, and the log of writes performed. -/
structure FileSt where
  unusedLogicalStart : Nat
  l2p : Nat → Nat
  writerCount : Int
  writes : List WriteRec

/-- `allocateSpace(n, _) → logicalOffset`: reserves `n` contiguous logical
bytes at the frontier and advances it (spec §6). -/
def FileSt.allocateSpace (f : FileSt) (n : Nat) : Nat × FileSt :=
  (f.unusedLogicalStart, { f with unusedLogicalStart := f.unusedLogicalStart + n })

/-- The full writer state (fields of `CompressedVectorWriterImpl`,
lines 116-131, plus the host file). -/
structure WState where
  isOpen : Bool
  protoPaths : List String
  sbufs : List SDBuf
  bytestreams : List EncState
  sectionHeaderLogicalStart : Nat
  sectionLogicalLength : Nat
  dataPhysicalOffset : Nat
  topIndexPhysicalOffset : Nat
  recordCount : Nat
  dataPacketsCount : Nat
  indexPacketsCount : Nat
  file : FileSt

/-- `totalOutputAvailable()` (lines 404-414). -/
def totalOutputAvailable (s : WState) : Nat :=
  (s.bytestreams.map EncState.avail).sum

/-- `currentPacketSize()` (lines 416-421). -/
def currentPacketSize (s : WState) : Nat :=
  dataPacketHeaderSize + s.bytestreams.length * 2 + totalOutputAvailable s

/-- `registerFlushToOutput()` on one encoder: commit the partial register
state into the output queue (idempotent). -/
def flushStream (e : EncState) : EncState :=
  { e with avail := e.avail + e.reg, reg := 0 }

/-- `flush()` (lines 691-697). -/
def flush (s : WState) : WState :=
  { s with bytestreams := s.bytestreams.map flushStream }

/-- The per-stream byte counts `packetWrite` computes for the current
state (lines 450-475): `count` over the encoders' `outputAvailable()`
values. -/
def stateCounts (s : WState) : List Nat :=
  packetCounts s.bytestreams.length (totalOutputAvailable s)
    (s.bytestreams.map EncState.avail)

/-- The unpadded packet length of `packetWrite`: header, bytestream
buffer length array, payload (the pointer difference of line 548). -/
def rawPacketLength (s : WState) : Nat :=
  dataPacketHeaderSize + s.bytestreams.length * 2 + (stateCounts s).sum

/-- The encoders after `outputRead` drained `count.at(i)` bytes from each
(lines 528-545). -/
def drainStreams (s : WState) : List EncState :=
  s.bytestreams.map (fun e =>
    { e with
      avail := e.avail -
        streamCount (cPacketMaxPayloadBytes s.bytestreams.length)
          (totalOutputAvailable s) e.avail })

/-- Commit one data packet of padded length `L`: allocate space at the
frontier, translate to a physical offset, log the write, capture the
physical offset of the first data packet (lines 592-613), and install the
updated encoder list. -/
def commitDataPacket (s : WState) (bytestreams1 : List EncState) (L : Nat)
    (bsb : List Nat) : WState :=
  let af := s.file.allocateSpace L
  let physicalOffset := af.2.l2p af.1
  { s with
    bytestreams := bytestreams1
    file := { af.2 with
      writes := af.2.writes ++ [.dataPacket af.1 physicalOffset L bsb] }
    dataPhysicalOffset :=
      if s.dataPacketsCount = 0 then physicalOffset else s.dataPhysicalOffset
    dataPacketsCount := s.dataPacketsCount + 1 }

/-- `packetWrite()` (lines 423-619).  Computes per-stream counts, stores
the `uint16_t` buffer lengths, drains `count.at(i)` bytes from each
encoder via `outputRead`, zero-pads the packet to a multiple of 4, writes
it at the allocation frontier, and captures the physical offset of the
first data packet.  The `VALIDATE_BASIC` sum check (lines 484-495) is
included; the length re-check (lines 553-563) compares the pointer
difference with the same expression and can never fire here. -/
def packetWrite (s : WState) : Option Err × WState :=
  if totalOutputAvailable s = 0 then (none, s)
  else if cPacketMaxPayloadBytes s.bytestreams.length < (stateCounts s).sum then
    (some .internalError, s)
  else
    match padPacket (rawPacketLength s) with
    | .error err => (some err, { s with bytestreams := drainStreams s })
    | .ok L => (none, commitDataPacket s (drainStreams s) L (bsbLengths (stateCounts s)))

/-- `packetWriteZeroRecords()` (lines 623-664): a header-only data packet,
zero-padded (its `bytestreamCount` is 0 and it drains nothing), with the
same first-data-packet offset capture. -/
def packetWriteZeroRecords (s : WState) : WState :=
  commitDataPacket s s.bytestreams (padZeroRecords dataPacketHeaderSize) []

/-- `packetWriteIndex()` (lines 669-689): one index packet with a single
entry pointing at the first data packet. -/
def packetWriteIndex (s : WState) : WState :=
  let cPacketLength := indexPacketHeaderSize + indexEntrySize
  let af := s.file.allocateSpace cPacketLength
  let physicalOffset := af.2.l2p af.1
  let f := { af.2 with
    writes := af.2.writes ++ [.indexPacket af.1 physicalOffset cPacketLength s.dataPhysicalOffset] }
  { s with
    file := f
    topIndexPhysicalOffset := physicalOffset
    indexPacketsCount := s.indexPacketsCount + 1 }

/-- The drain loop of `close()` (lines 180-184): while any output remains,
write a packet and flush again.  `fuel` bounds the iteration count. -/
def drainLoop (fuel : Nat) (s : WState) : Option Err × WState :=
  if totalOutputAvailable s = 0 then (none, s)
  else
    match fuel with
    | 0 => (some .outOfFuel, s)
    | fuel + 1 =>
      match packetWrite s with
      | (some err, s1) => (some err, s1)
      | (none, s1) => drainLoop fuel (flush s1)

/-- `imf->decrWriterCount()` — Modelled from the spec (§4.4 step 1;
ImageFileImpl.cpp is outside the provided sources): decrement the
enclosing file's writer counter. -/
def decrCounter (s : WState) : WState :=
  { s with file := { s.file with writerCount := s.file.writerCount - 1 } }

/-- `isOpen_ = false` before any I/O (line 173). -/
def markClosed (s : WState) : WState :=
  { s with isOpen := false }

/-- Steps 6-10 of `close()` (lines 186-223): emit the single index
packet, compute the section length from the allocation frontier, write
the section header into the reserved slot, record the results and release
the encoders. -/
def finishClose (s1 : WState) : WState :=
  let s2 := packetWriteIndex s1
  let secLen := s2.file.unusedLogicalStart - s2.sectionHeaderLogicalStart
  let hdr : SectionHeaderRec :=
    { sectionLogicalLength := secLen
      dataPhysicalOffset := s2.dataPhysicalOffset
      indexPhysicalOffset := s2.topIndexPhysicalOffset }
  let f := { s2.file with
    writes := s2.file.writes ++ [.sectionHeader s2.sectionHeaderLogicalStart hdr] }
  { s2 with sectionLogicalLength := secLen, file := f, bytestreams := [] }

/-- `close()` (lines 153-229): decrement the file's writer counter before
anything else; return if already closed; otherwise mark closed, drain the
encoders, then finish the section. -/
def close (fuel : Nat) (s : WState) : Option Err × WState :=
  let sd := decrCounter s
  if ¬sd.isOpen then (none, sd)
  else
    match drainLoop fuel (flush (markClosed sd)) with
    | (some err, s1) => (some err, s1)
    | (none, s1) => (none, finishClose s1)

/-- Modelled from the spec: `proto->checkBuffers(sbufs, false)` (§4.1:
every terminal field of the prototype appears exactly once among the
buffer paths, no duplicates, no extras; CompressedVectorNodeImpl.cpp is
outside the provided sources). -/
def checkBuffers (protoPaths : List String) (sbufs : List SDBuf) : Bool :=
  (sbufs.map SDBuf.pathName).isPerm protoPaths

/-- `setBuffers(sbufs)` (lines 244-275): with previously installed
buffers, first compare lengths, then pairwise compatibility; in all cases
validate against the prototype; only then install the new buffers. -/
def setBuffers (newBufs : List SDBuf) (s : WState) : Option Err × WState :=
  if s.sbufs.isEmpty then
    if checkBuffers s.protoPaths newBufs then (none, { s with sbufs := newBufs })
    else (some .buffersNotCompatible, s)
  else if s.sbufs.length ≠ newBufs.length then (some .buffersNotCompatible, s)
  else if ¬(List.zip s.sbufs newBufs).all (fun p => checkCompatible p.1 p.2) then
    (some .buffersNotCompatible, s)
  else if ¬checkBuffers s.protoPaths newBufs then (some .buffersNotCompatible, s)
  else (none, { s with sbufs := newBufs })

/-- Modelled from the spec: `processRecords(k)` consumes `k` records from
the bound field buffer and appends compressed bytes to the output queue
(§3); production is the abstract per-stream rate `bytesPerRecord`. -/
def processRecords (e : EncState) (k : Nat) : EncState :=
  { e with
    currentRecordIndex := e.currentRecordIndex + k
    avail := e.avail + k * e.bytesPerRecord }

/-- One pass of the per-stream stepping (lines 385-395): each stream
behind `endRecordIndex` processes up to 50 records. -/
def processAll (endRecordIndex : Nat) (s : WState) : WState :=
  { s with bytestreams := s.bytestreams.map (fun e =>
      if e.currentRecordIndex < endRecordIndex then
        processRecords e (min (endRecordIndex - e.currentRecordIndex) 50)
      else e) }

/-- Remaining record work across all channels (lines 322-326). -/
def totalRecordCount (endRecordIndex : Nat) (s : WState) : Nat :=
  (s.bytestreams.map (fun e => endRecordIndex - e.currentRecordIndex)).sum

/-- The main loop of `write(requestedRecordCount)` (lines 319-396):
emit a packet once the pending packet reaches the target size, otherwise
step every lagging stream forward. -/
def writeLoop (fuel endRecordIndex : Nat) (s : WState) : Option Err × WState :=
  if totalRecordCount endRecordIndex s = 0 then (none, s)
  else
    match fuel with
    | 0 => (some .outOfFuel, s)
    | fuel + 1 =>
      if E57_TARGET_PACKET_SIZE ≤ currentPacketSize s then
        match packetWrite s with
        | (some err, s1) => (some err, s1)
        | (none, s1) => writeLoop fuel endRecordIndex s1
      else writeLoop fuel endRecordIndex (processAll endRecordIndex s)

/-- `write(requestedRecordCount)` (lines 287-402).  The rewind of the
source buffers (lines 312-315) touches only buffer-internal read cursors,
which are not observable in this model. -/
def write (fuel requestedRecordCount : Nat) (s : WState) : Option Err × WState :=
  if ¬s.isOpen then (some .writerNotOpen, s)
  else if requestedRecordCount = 0 then (none, packetWriteZeroRecords s)
  else
    match s.sbufs with
    | [] => (some .internalError, s)
    | b0 :: _ =>
      if b0.capacity < requestedRecordCount then (some .badAPIArgument, s)
      else
        match writeLoop fuel (s.recordCount + requestedRecordCount) s with
        | (some err, s1) => (some err, s1)
        | (none, s1) =>
          (none, { s1 with recordCount := s1.recordCount + requestedRecordCount })

/-- The two-argument overload `write(sbufs, requestedRecordCount)`
(lines 277-285): `setBuffers` first, then `write`; neither the image-file
check nor the writer-open check runs before `setBuffers`. -/
def writeWithBuffers (fuel : Nat) (newBufs : List SDBuf) (requestedRecordCount : Nat)
    (s : WState) : Option Err × WState :=
  match setBuffers newBufs s with
  | (some err, s1) => (some err, s1)
  | (none, s1) => write fuel requestedRecordCount s1

/-- Modelled from the spec: `findTerminalPosition` resolves a field path
to its bytestream number, the position of the terminal field in a
depth-first traversal of the prototype (Glossary); here the index of the
path in `protoPaths`. -/
def findTerminalPosition (protoPaths : List String) (path : String) : Option Nat :=
  protoPaths.indexOf? path

/-- Insert an encoder into a list sorted by bytestream number (the
`std::sort` with `SortByBytestreamNumber`, lines 41-48 and 97, realised
as insertion sort). -/
def insertByNumber (e : EncState) : List EncState → List EncState
  | [] => [e]
  | f :: fs =>
    if e.bytestreamNumber ≤ f.bytestreamNumber then e :: f :: fs
    else f :: insertByNumber e fs

/-- Sort the encoders ascending by bytestream number (line 97). -/
def sortByBytestreamNumber : List EncState → List EncState
  | [] => []
  | e :: es => insertByNumber e (sortByBytestreamNumber es)

/-- The constructor (lines 50-132): reject an empty buffer sequence,
validate the buffers against the prototype via `setBuffers`, build one
encoder per buffer keyed by its terminal position (failing with
`ErrorInternal` when a path has none), sort encoders by bytestream
number, reserve the section header slot at the allocation frontier,
increment the file's writer counter and open the writer. -/
def mkWriter (protoPaths : List String) (sbufs : List SDBuf)
    (bytesPerRecordOf : String → Nat) (file0 : FileSt) : Except Err WState :=
  if sbufs.isEmpty then .error .badAPIArgument
  else
    let s0 : WState :=
      { isOpen := false, protoPaths := protoPaths, sbufs := [], bytestreams := []
        sectionHeaderLogicalStart := 0, sectionLogicalLength := 0
        dataPhysicalOffset := 0, topIndexPhysicalOffset := 0
        recordCount := 0, dataPacketsCount := 0, indexPacketsCount := 0
        file := file0 }
    match setBuffers sbufs s0 with
    | (some err, _) => .error err
    | (none, s1) =>
      match s1.sbufs.mapM (fun b =>
          (findTerminalPosition protoPaths b.pathName).map (fun n =>
            ({ bytestreamNumber := n, currentRecordIndex := 0, avail := 0, reg := 0
               bytesPerRecord := bytesPerRecordOf b.pathName } : EncState))) with
      | none => .error .internalError
      | some encs =>
        let sorted := sortByBytestreamNumber encs
        let af := s1.file.allocateSpace sectionHeaderSize
        let f2 := { af.2 with writerCount := af.2.writerCount + 1 }
        .ok { s1 with
              isOpen := true
              bytestreams := sorted
              sectionHeaderLogicalStart := af.1
              file := f2 }

/-- The public operations available on a constructed writer. -/
inductive Op where
  | write (fuel n : Nat)
  | writeWithBuffers (fuel : Nat) (bufs : List SDBuf) (n : Nat)
  | close (fuel : Nat)

/-- Dispatch one operation. -/
def runOp : Op → WState → Option Err × WState
  | .write fuel n, s => write fuel n s
  | .writeWithBuffers fuel bufs n, s => writeWithBuffers fuel bufs n s
  | .close fuel, s => close fuel s

/-- Run a sequence of operations, stopping at the first failure. -/
def runOps : List Op → WState → Option Err × WState
  | [], s => (none, s)
  | op :: ops, s =>
    match runOp op s with
    | (some err, s1) => (some err, s1)
    | (none, s1) => runOps ops s1

/-- Physical offsets of the data packets in the write log, in emission
order. -/
def dataPacketOffsets (ws : List WriteRec) : List Nat :=
  ws.filterMap (fun w => match w with
    | .dataPacket _ phys _ _ => some phys
    | _ => none)

/-- `(logicalOffset, physicalOffset, length)` of the index packets in the
write log. -/
def indexPacketRecs (ws : List WriteRec) : List (Nat × Nat × Nat) :=
  ws.filterMap (fun w => match w with
    | .indexPacket lo phys len _ => some (lo, phys, len)
    | _ => none)

/-- `(logicalOffset, header)` of the section header writes in the log. -/
def sectionHeaderRecs (ws : List WriteRec) : List (Nat × SectionHeaderRec) :=
  ws.filterMap (fun w => match w with
    | .sectionHeader lo hdr => some (lo, hdr)
    | _ => none)

/-- The physical offset of the first data packet in the write log, or 0
when none has been emitted. -/
def firstDataOffset (ws : List WriteRec) : Nat :=
  (dataPacketOffsets ws).headD 0

/-- Data-packet bookkeeping invariant: `dataPhysicalOffset_` caches the
physical offset of the first emitted data packet (0 before any), and
`dataPacketsCount_` counts the emitted data packets. -/
def InvData (s : WState) : Prop :=
  s.dataPhysicalOffset = firstDataOffset s.file.writes
  ∧ s.dataPacketsCount = (dataPacketOffsets s.file.writes).length

/-- Lifecycle invariant at operation boundaries: an open writer has not
yet emitted its index packet or section header; a writer closed by a
completed `close` has emitted its single index packet. -/
def InvLife (s : WState) : Prop :=
  (s.isOpen = true →
    indexPacketRecs s.file.writes = [] ∧ sectionHeaderRecs s.file.writes = []
    ∧ s.indexPacketsCount = 0)
  ∧ (s.isOpen = false → s.indexPacketsCount = 1)

/-- The full trace invariant. -/
def Inv (s : WState) : Prop := InvData s ∧ InvLife s

/-- Facts preserved by every step that emits only data packets. -/
def FrameNoIndex (s s1 : WState) : Prop :=
  indexPacketRecs s1.file.writes = indexPacketRecs s.file.writes
  ∧ sectionHeaderRecs s1.file.writes = sectionHeaderRecs s.file.writes
  ∧ s1.indexPacketsCount = s.indexPacketsCount
  ∧ s1.isOpen = s.isOpen
  ∧ s1.sectionHeaderLogicalStart = s.sectionHeaderLogicalStart

/-- The record count an operation adds on success. -/
def opWriteCount : Op → Nat
  | .write _ n => n
  | .writeWithBuffers _ _ n => n
  | .close _ => 0

/-- The total record count requested by the write operations of a trace. -/
def sumWriteCounts : List Op → Nat
  | [] => 0
  | op :: ops => opWriteCount op + sumWriteCounts ops

/-- Whether an operation is a zero-record write. -/
def opIsWriteZero : Op → Bool
  | .write _ n => n == 0
  | .writeWithBuffers _ _ n => n == 0
  | .close _ => false

/-- Whether a trace contains a zero-record write. -/
def containsWriteZero : List Op → Bool
  | [] => false
  | op :: ops => opIsWriteZero op || containsWriteZero ops

/-- A small concrete host file used for concrete instantiations. -/
def exampleFile : FileSt :=
  { unusedLogicalStart := 100, l2p := fun l => l + 8, writerCount := 1, writes := [] }

/-- A one-stream open writer with 5 pending output bytes. -/
def exampleState : WState :=
  { isOpen := true, protoPaths := ["x"]
    sbufs := [{ pathName := "x", capacity := 10, typeTag := 1, stride := 4 }]
    bytestreams := [{ bytestreamNumber := 0, currentRecordIndex := 5, avail := 5
                      reg := 0, bytesPerRecord := 1 }]
    sectionHeaderLogicalStart := 68, sectionLogicalLength := 0
    dataPhysicalOffset := 0, topIndexPhysicalOffset := 0
    recordCount := 5, dataPacketsCount := 0, indexPacketsCount := 0
    file := exampleFile }

/-- An open writer bound to two buffers of different capacities (10 and
5); the prototype has two terminal fields. -/
def twoBufferState : WState :=
  { isOpen := true, protoPaths := ["x", "y"]
    sbufs := [{ pathName := "x", capacity := 10, typeTag := 1, stride := 4 },
              { pathName := "y", capacity := 5, typeTag := 1, stride := 4 }]
    bytestreams := [{ bytestreamNumber := 0, currentRecordIndex := 0, avail := 0
                      reg := 0, bytesPerRecord := 1 },
                    { bytestreamNumber := 1, currentRecordIndex := 0, avail := 0
                      reg := 0, bytesPerRecord := 1 }]
    sectionHeaderLogicalStart := 68, sectionLogicalLength := 0
    dataPhysicalOffset := 0, topIndexPhysicalOffset := 0
    recordCount := 0, dataPacketsCount := 0, indexPacketsCount := 0
    file := exampleFile }

/-- One encoder state holding a single pending output byte. -/
def oneByteEnc : EncState :=
  { bytestreamNumber := 0, currentRecordIndex := 0, avail := 1, reg := 0
    bytesPerRecord := 0 }

/-- A writer with 21 844 streams, each with one pending output byte: the
stream count exceeds `cPacketMaxPayloadBytes - 1`, so the proportional
branch of `packetWrite` rounds every per-stream count down to zero. -/
def manyStreamsState : WState :=
  { isOpen := false, protoPaths := [], sbufs := []
    bytestreams := List.replicate 21844 oneByteEnc
    sectionHeaderLogicalStart := 68, sectionLogicalLength := 0
    dataPhysicalOffset := 0, topIndexPhysicalOffset := 0
    recordCount := 0, dataPacketsCount := 0, indexPacketsCount := 0
    file := exampleFile }

/-- The writer state produced by constructing a writer over a one-field
prototype against a fresh host file (used for concrete instantiations;
`mkWriter` succeeds on this input, so the default is never taken). -/
def builtState : WState :=
  ((mkWriter ["x"] [{ pathName := "x", capacity := 10, typeTag := 1, stride := 4 }]
      (fun _ => 1)
      { unusedLogicalStart := 100, l2p := fun l => l + 8
        writerCount := 0, writes := [] }).toOption).getD
    { isOpen := false, protoPaths := [], sbufs := [], bytestreams := []
      sectionHeaderLogicalStart := 0, sectionLogicalLength := 0
      dataPhysicalOffset := 0, topIndexPhysicalOffset := 0
      recordCount := 0, dataPacketsCount := 0, indexPacketsCount := 0
      file := { unusedLogicalStart := 0, l2p := fun l => l
                writerCount := 0, writes := [] } }

/-- A writer that has already completed a `close`: marked not open, with
encoders released and the file's writer counter back at zero. -/
def closedState : WState :=
  { isOpen := false, protoPaths := ["x"]
    sbufs := [{ pathName := "x", capacity := 10, typeTag := 1, stride := 4 }]
    bytestreams := []
    sectionHeaderLogicalStart := 68, sectionLogicalLength := 48
    dataPhysicalOffset := 108, topIndexPhysicalOffset := 124
    recordCount := 5, dataPacketsCount := 1, indexPacketsCount := 1
    file := { unusedLogicalStart := 148, l2p := fun l => l + 8
              writerCount := 0, writes := [] } }

theorem roundNE_div_err (a b : Nat) (hb : 0 < b) :
    |((roundNE a b : Nat) : ℚ) - (a : ℚ) / (b : ℚ)| ≤ 1 / 2 := by
  have hbq : (0 : ℚ) < (b : ℚ) := by exact_mod_cast hb
  have hmod : a % b < b := Nat.mod_lt a hb
  have hdiv : (a : ℚ) / (b : ℚ) = ((a / b : Nat) : ℚ) + ((a % b : Nat) : ℚ) / (b : ℚ) := by
    have hqr : (a : ℚ) = (b : ℚ) * ((a / b : Nat) : ℚ) + ((a % b : Nat) : ℚ) := by
      exact_mod_cast (Nat.div_add_mod a b).symm
    field_simp
    linarith [hqr]
  have hr0 : (0 : ℚ) ≤ ((a % b : Nat) : ℚ) / (b : ℚ) := by positivity
  have hr1 : ((a % b : Nat) : ℚ) / (b : ℚ) < 1 := by
    rw [div_lt_one hbq]
    exact_mod_cast hmod
  unfold roundNE
  rw [abs_le]
  split
  · rename_i h1
    have hlt : ((a % b : Nat) : ℚ) / (b : ℚ) < 1 / 2 := by
      rw [div_lt_div_iff₀ hbq (by norm_num : (0:ℚ) < 2)]
      exact_mod_cast (by omega : (a % b) * 2 < 1 * b)
    constructor <;> rw [hdiv] <;> linarith
  · split
    · rename_i h1 h2
      have hgt : 1 / 2 < ((a % b : Nat) : ℚ) / (b : ℚ) := by
        rw [div_lt_div_iff₀ (by norm_num : (0:ℚ) < 2) hbq]
        exact_mod_cast (by omega : 1 * b < (a % b) * 2)
      constructor <;> rw [hdiv] <;> push_cast <;> linarith
    · rename_i h1 h2
      have heq : ((a % b : Nat) : ℚ) / (b : ℚ) = 1 / 2 := by
        rw [div_eq_div_iff (ne_of_gt hbq) (by norm_num : (2:ℚ) ≠ 0)]
        exact_mod_cast (by omega : (a % b) * 2 = 1 * b)
      split
      · constructor <;> rw [hdiv] <;> linarith
      · constructor <;> rw [hdiv] <;> push_cast <;> linarith

theorem lg2fuel_spec : ∀ fuel n, 1 ≤ n → n ≤ fuel →
    2 ^ lg2fuel fuel n ≤ n ∧ n < 2 ^ (lg2fuel fuel n + 1) := by
  intro fuel
  induction fuel with
  | zero => intro n h1 h2; omega
  | succ fuel ih =>
    intro n h1 h2
    unfold lg2fuel
    split
    · rename_i h2n
      have hrec := ih (n / 2) (by omega) (by omega)
      have hlo := hrec.1
      have hhi := hrec.2
      rw [pow_succ] at hhi
      constructor
      · rw [pow_succ]
        omega
      · rw [pow_succ, pow_succ]
        omega
    · rename_i h2n
      have hn1 : n = 1 := by omega
      subst hn1
      norm_num

theorem lg2_le (n : Nat) (h : 1 ≤ n) : 2 ^ lg2 n ≤ n :=
  (lg2fuel_spec n n h le_rfl).1

theorem lg2_lt (n : Nat) (h : 1 ≤ n) : n < 2 ^ (lg2 n + 1) :=
  (lg2fuel_spec n n h le_rfl).2

theorem clg2_ge (m : Nat) : m ≤ 2 ^ clg2 m := by
  unfold clg2
  split
  · rename_i h
    simpa using h
  · rename_i h
    have := lg2_lt (m - 1) (by omega)
    omega

theorem le_mul_ceilDiv (num den : Nat) (h : 1 ≤ num) :
    den ≤ num * ((den + num - 1) / num) := by
  have hdm := Nat.div_add_mod (den + num - 1) num
  have hm : (den + num - 1) % num < num := Nat.mod_lt _ (by omega)
  omega

theorem pairQ_nonneg (p : Nat × Nat) : 0 ≤ pairQ p := by
  unfold pairQ
  positivity

/-- One binary32 rounding has relative error at most `2⁻²⁴`: the half-ulp
of a value with significand in `[2^23, 2^24]`. -/
theorem fl32Pair_err (num den : Nat) (hden : 0 < den) :
    |pairQ (fl32Pair num den) - (num : ℚ) / (den : ℚ)|
      ≤ ((num : ℚ) / (den : ℚ)) / 2 ^ 24 := by
  have hdq : (0 : ℚ) < (den : ℚ) := by exact_mod_cast hden
  rw [fl32Pair]
  split
  · rename_i h0
    subst h0
    simp [pairQ]
  rename_i h0
  split
  · rename_i hdn
    have h1 : 1 ≤ num / den := (Nat.one_le_div_iff hden).mpr hdn
    have hklow : 2 ^ lg2 (num / den) * den ≤ num :=
      calc 2 ^ lg2 (num / den) * den ≤ (num / den) * den :=
            Nat.mul_le_mul_right den (lg2_le _ h1)
        _ ≤ num := Nat.div_mul_le_self num den
    have hxk : (2 : ℚ) ^ lg2 (num / den) ≤ (num : ℚ) / (den : ℚ) := by
      rw [le_div_iff₀ hdq]
      exact_mod_cast hklow
    split
    · rename_i hk
      set k := lg2 (num / den) with hkdef
      set s := 23 - k with hsdef
      have hks : k + s = 23 := by omega
      have herr := roundNE_div_err (num * 2 ^ s) den hden
      have hA : ((num * 2 ^ s : Nat) : ℚ) / (den : ℚ) = (num : ℚ) / den * 2 ^ s := by
        push_cast
        ring
      rw [hA] at herr
      have h2s : (0 : ℚ) < 2 ^ s := by positivity
      show |((roundNE (num * 2 ^ s) den : Nat) : ℚ) / 2 ^ s - (num : ℚ) / den| ≤ _
      have hsplit : ((roundNE (num * 2 ^ s) den : Nat) : ℚ) / 2 ^ s - (num : ℚ) / den
          = (((roundNE (num * 2 ^ s) den : Nat) : ℚ) - (num : ℚ) / den * 2 ^ s) / 2 ^ s := by
        field_simp
        ring
      rw [hsplit, abs_div, abs_of_pos h2s]
      calc |((roundNE (num * 2 ^ s) den : Nat) : ℚ) - (num : ℚ) / den * 2 ^ s| / 2 ^ s
          ≤ (1 / 2) / 2 ^ s := by gcongr
        _ ≤ ((num : ℚ) / den) / 2 ^ 24 := by
            rw [div_le_div_iff₀ h2s (by positivity)]
            have h23 : ((1 : ℚ) / 2) * 2 ^ 24 = 2 ^ k * 2 ^ s := by
              rw [← pow_add, hks]
              norm_num
            rw [h23]
            exact mul_le_mul_of_nonneg_right hxk (le_of_lt h2s)
    · rename_i hk
      set k := lg2 (num / den) with hkdef
      set t := k - 23 with htdef
      have hkt : t + 23 = k := by omega
      have hBpos : 0 < den * 2 ^ t := by positivity
      have herr := roundNE_div_err num (den * 2 ^ t) hBpos
      have h2t : (0 : ℚ) < 2 ^ t := by positivity
      have hB : (num : ℚ) / ((den * 2 ^ t : Nat) : ℚ) = (num : ℚ) / den / 2 ^ t := by
        push_cast
        rw [div_div]
      rw [hB] at herr
      show |((roundNE num (den * 2 ^ t) * 2 ^ t : Nat) : ℚ) / 2 ^ 0 - (num : ℚ) / den| ≤ _
      have hsplit : ((roundNE num (den * 2 ^ t) * 2 ^ t : Nat) : ℚ) / 2 ^ 0 - (num : ℚ) / den
          = (((roundNE num (den * 2 ^ t) : Nat) : ℚ) - (num : ℚ) / den / 2 ^ t) * 2 ^ t := by
        push_cast
        field_simp
        ring
      rw [hsplit, abs_mul, abs_of_pos h2t]
      calc |((roundNE num (den * 2 ^ t) : Nat) : ℚ) - (num : ℚ) / den / 2 ^ t| * 2 ^ t
          ≤ (1 / 2) * 2 ^ t := by gcongr
        _ ≤ ((num : ℚ) / den) / 2 ^ 24 := by
            rw [le_div_iff₀ (by positivity : (0:ℚ) < 2 ^ 24)]
            have h2 : ((1 : ℚ) / 2) * 2 ^ t * 2 ^ 24 = 2 ^ k := by
              rw [← hkt, pow_add]
              ring
            rw [h2]
            exact hxk
  · rename_i hdn
    have hnum1 : 1 ≤ num := by omega
    have hceil : den ≤ num * ((den + num - 1) / num) := le_mul_ceilDiv num den hnum1
    have hklow : den ≤ num * 2 ^ clg2 ((den + num - 1) / num) :=
      le_trans hceil (Nat.mul_le_mul_left num (clg2_ge _))
    set k := clg2 ((den + num - 1) / num) with hkdef
    have hxk : (1 : ℚ) / 2 ^ k ≤ (num : ℚ) / (den : ℚ) := by
      rw [div_le_div_iff₀ (by positivity) hdq]
      have hc : (den : ℚ) ≤ (num : ℚ) * (2 : ℚ) ^ k := by exact_mod_cast hklow
      linarith
    have herr := roundNE_div_err (num * 2 ^ (23 + k)) den hden
    have hA : ((num * 2 ^ (23 + k) : Nat) : ℚ) / (den : ℚ)
        = (num : ℚ) / den * 2 ^ (23 + k) := by
      push_cast
      ring
    rw [hA] at herr
    have h2s : (0 : ℚ) < 2 ^ (23 + k) := by positivity
    show |((roundNE (num * 2 ^ (23 + k)) den : Nat) : ℚ) / 2 ^ (23 + k) - (num : ℚ) / den| ≤ _
    have hsplit : ((roundNE (num * 2 ^ (23 + k)) den : Nat) : ℚ) / 2 ^ (23 + k)
          - (num : ℚ) / den
        = (((roundNE (num * 2 ^ (23 + k)) den : Nat) : ℚ)
            - (num : ℚ) / den * 2 ^ (23 + k)) / 2 ^ (23 + k) := by
      field_simp
      ring
    rw [hsplit, abs_div, abs_of_pos h2s]
    calc |((roundNE (num * 2 ^ (23 + k)) den : Nat) : ℚ) - (num : ℚ) / den * 2 ^ (23 + k)|
          / 2 ^ (23 + k)
        ≤ (1 / 2) / 2 ^ (23 + k) := by gcongr
      _ ≤ ((num : ℚ) / den) / 2 ^ 24 := by
          rw [div_le_div_iff₀ h2s (by positivity)]
          have h23 : ((1 : ℚ) / 2) * 2 ^ 24 = (1 / 2 ^ k) * 2 ^ (23 + k) := by
            rw [pow_add]
            field_simp
            ring
          rw [h23]
          exact mul_le_mul_of_nonneg_right hxk (le_of_lt h2s)

theorem fl32Pair_ub (num den : Nat) (hden : 0 < den) :
    pairQ (fl32Pair num den) ≤ (num : ℚ) / den * (1 + 1 / 2 ^ 24) := by
  have h := fl32Pair_err num den hden
  rw [abs_le] at h
  have h2 := h.2
  have hx : (0 : ℚ) ≤ (num : ℚ) / den := by positivity
  nlinarith [h2, hx]

theorem fl32Pair_lb (num den : Nat) (hden : 0 < den) :
    (num : ℚ) / den * (1 - 1 / 2 ^ 24) ≤ pairQ (fl32Pair num den) := by
  have h := fl32Pair_err num den hden
  rw [abs_le] at h
  have h1 := h.1
  have hx : (0 : ℚ) ≤ (num : ℚ) / den := by positivity
  nlinarith [h1, hx]

theorem fl32Pair_fst_pos (n : Nat) (hn : 0 < n) : 0 < (fl32Pair n 1).1 := by
  have hlb := fl32Pair_lb n 1 one_pos
  have hnq : (1 : ℚ) ≤ (n : ℚ) := by exact_mod_cast hn
  have hq : 0 < pairQ (fl32Pair n 1) := by
    have hpos : (0 : ℚ) < (n : ℚ) / 1 * (1 - 1 / 2 ^ 24) := by
      rw [div_one]
      nlinarith
    linarith
  by_contra hc
  push_neg at hc
  have h0 : (fl32Pair n 1).1 = 0 := by omega
  rw [pairQ, h0] at hq
  simp at hq

/-- Upper error bound on the proportional-branch count, multiplied out:
`count * T * (1-ε) ≤ (M-1) * a * (1+ε)^4` with `ε = 2⁻²⁴` — one rounding
each for the conversions of `M-1`, `T` and `a`, the division, and the
multiplication (the conversion of `T` enters through the lower bound on
the divisor). -/
theorem streamCountProp_ub (M T a : Nat) (hT : 0 < T) :
    ((streamCountProp M T a : Nat) : ℚ) * ((T : ℚ) * (1 - 1 / 2 ^ 24))
      ≤ ((M - 1 : Nat) : ℚ) * (a : ℚ) * (1 + 1 / 2 ^ 24) ^ 4 := by
  have hTq : (0 : ℚ) < (T : ℚ) := by exact_mod_cast hT
  simp only [streamCountProp]
  set fM := fl32Pair (M - 1) 1 with hfM
  set fT := fl32Pair T 1 with hfT
  set fq := fl32Pair (fM.1 * 2 ^ fT.2) (fT.1 * 2 ^ fM.2) with hfq
  set fa := fl32Pair a 1 with hfa
  set p := fl32Pair (fq.1 * fa.1) (2 ^ (fq.2 + fa.2)) with hp
  have hfT1 : 0 < fT.1 := fl32Pair_fst_pos T hT
  have hden : (0 : Nat) < fT.1 * 2 ^ fM.2 := by positivity
  have hvM_ub : pairQ fM ≤ ((M - 1 : Nat) : ℚ) * (1 + 1 / 2 ^ 24) := by
    have := fl32Pair_ub (M - 1) 1 one_pos
    rwa [Nat.cast_one, div_one] at this
  have hvT_lb : (T : ℚ) * (1 - 1 / 2 ^ 24) ≤ pairQ fT := by
    have := fl32Pair_lb T 1 one_pos
    rwa [Nat.cast_one, div_one] at this
  have hva_ub : pairQ fa ≤ (a : ℚ) * (1 + 1 / 2 ^ 24) := by
    have := fl32Pair_ub a 1 one_pos
    rwa [Nat.cast_one, div_one] at this
  have hvT_pos : 0 < pairQ fT :=
    lt_of_lt_of_le (mul_pos hTq (by norm_num)) hvT_lb
  have hqq : ((fM.1 * 2 ^ fT.2 : Nat) : ℚ) / ((fT.1 * 2 ^ fM.2 : Nat) : ℚ)
      = pairQ fM / pairQ fT := by
    unfold pairQ
    have h1 : ((fT.1 : Nat) : ℚ) ≠ 0 := by
      exact_mod_cast Nat.pos_iff_ne_zero.mp hfT1
    push_cast
    field_simp
    exact Or.inl (mul_comm _ _)
  have hvq_ub : pairQ fq ≤ (pairQ fM / pairQ fT) * (1 + 1 / 2 ^ 24) := by
    have := fl32Pair_ub (fM.1 * 2 ^ fT.2) (fT.1 * 2 ^ fM.2) hden
    rwa [hqq] at this
  have hppden : (0 : Nat) < 2 ^ (fq.2 + fa.2) := by positivity
  have hpp : ((fq.1 * fa.1 : Nat) : ℚ) / ((2 ^ (fq.2 + fa.2) : Nat) : ℚ)
      = pairQ fq * pairQ fa := by
    unfold pairQ
    push_cast [pow_add]
    rw [div_mul_div_comm]
  have hvp_ub : pairQ p ≤ (pairQ fq * pairQ fa) * (1 + 1 / 2 ^ 24) := by
    have := fl32Pair_ub (fq.1 * fa.1) (2 ^ (fq.2 + fa.2)) hppden
    rwa [hpp] at this
  have hcount : ((p.1 / 2 ^ p.2 : Nat) : ℚ) ≤ pairQ p := by
    unfold pairQ
    have h := Nat.cast_div_le (α := ℚ) (m := p.1) (n := 2 ^ p.2)
    push_cast at h ⊢
    exact h
  have hq_nonneg : 0 ≤ pairQ fq := pairQ_nonneg fq
  have ha_nonneg : 0 ≤ pairQ fa := pairQ_nonneg fa
  have hqT : pairQ fq * pairQ fT ≤ pairQ fM * (1 + 1 / 2 ^ 24) := by
    rw [div_mul_eq_mul_div] at hvq_ub
    exact (le_div_iff₀ hvT_pos).mp hvq_ub
  calc ((p.1 / 2 ^ p.2 : Nat) : ℚ) * ((T : ℚ) * (1 - 1 / 2 ^ 24))
      ≤ pairQ p * ((T : ℚ) * (1 - 1 / 2 ^ 24)) := by
        apply mul_le_mul_of_nonneg_right hcount
        positivity
    _ ≤ pairQ p * pairQ fT := by
        apply mul_le_mul_of_nonneg_left hvT_lb (pairQ_nonneg p)
    _ ≤ ((pairQ fq * pairQ fa) * (1 + 1 / 2 ^ 24)) * pairQ fT := by
        apply mul_le_mul_of_nonneg_right hvp_ub (le_of_lt hvT_pos)
    _ = (pairQ fq * pairQ fT) * pairQ fa * (1 + 1 / 2 ^ 24) := by ring
    _ ≤ (pairQ fM * (1 + 1 / 2 ^ 24)) * pairQ fa * (1 + 1 / 2 ^ 24) := by
        apply mul_le_mul_of_nonneg_right
          (mul_le_mul_of_nonneg_right hqT ha_nonneg)
        positivity
    _ ≤ (pairQ fM * (1 + 1 / 2 ^ 24)) * ((a : ℚ) * (1 + 1 / 2 ^ 24))
          * (1 + 1 / 2 ^ 24) := by
        apply mul_le_mul_of_nonneg_right
        · apply mul_le_mul_of_nonneg_left hva_ub
          exact mul_nonneg (pairQ_nonneg fM) (by norm_num)
        · positivity
    _ ≤ ((((M - 1 : Nat) : ℚ) * (1 + 1 / 2 ^ 24)) * (1 + 1 / 2 ^ 24))
          * ((a : ℚ) * (1 + 1 / 2 ^ 24)) * (1 + 1 / 2 ^ 24) := by
        apply mul_le_mul_of_nonneg_right
        apply mul_le_mul_of_nonneg_right
        · apply mul_le_mul_of_nonneg_right hvM_ub
          positivity
        · positivity
        · positivity
    _ = ((M - 1 : Nat) : ℚ) * (a : ℚ) * (1 + 1 / 2 ^ 24) ^ 4 := by ring

/-- Lower error bound: when some stream holds at least the average share
of a positive pending total and `N + 2 ≤ M` (with `N ≤ 21 842`), the
proportional branch still selects at least one byte for it, float
rounding notwithstanding. -/
theorem streamCountProp_pos (M T a N : Nat) (hT : 0 < T) (hMN : N + 2 ≤ M)
    (hNle : N ≤ 21842) (hTa : T ≤ N * a) :
    1 ≤ streamCountProp M T a := by
  have hTq : (0 : ℚ) < (T : ℚ) := by exact_mod_cast hT
  have hN1 : 1 ≤ N := by
    rcases Nat.eq_zero_or_pos N with rfl | h
    · rw [Nat.zero_mul] at hTa
      omega
    · exact h
  have ha1 : 1 ≤ a := by
    rcases Nat.eq_zero_or_pos a with rfl | h
    · rw [Nat.mul_zero] at hTa
      omega
    · exact h
  have heps0 : (0 : ℚ) ≤ 1 - 1 / 2 ^ 24 := by norm_num
  have heps0lt : (0 : ℚ) < 1 - 1 / 2 ^ 24 := by norm_num
  simp only [streamCountProp]
  set fM := fl32Pair (M - 1) 1 with hfM
  set fT := fl32Pair T 1 with hfT
  set fq := fl32Pair (fM.1 * 2 ^ fT.2) (fT.1 * 2 ^ fM.2) with hfq
  set fa := fl32Pair a 1 with hfa
  set p := fl32Pair (fq.1 * fa.1) (2 ^ (fq.2 + fa.2)) with hp
  have hfT1 : 0 < fT.1 := fl32Pair_fst_pos T hT
  have hden : (0 : Nat) < fT.1 * 2 ^ fM.2 := by positivity
  have hvM_lb : ((M - 1 : Nat) : ℚ) * (1 - 1 / 2 ^ 24) ≤ pairQ fM := by
    have := fl32Pair_lb (M - 1) 1 one_pos
    rwa [Nat.cast_one, div_one] at this
  have hvT_ub : pairQ fT ≤ (T : ℚ) * (1 + 1 / 2 ^ 24) := by
    have := fl32Pair_ub T 1 one_pos
    rwa [Nat.cast_one, div_one] at this
  have hvT_lb : (T : ℚ) * (1 - 1 / 2 ^ 24) ≤ pairQ fT := by
    have := fl32Pair_lb T 1 one_pos
    rwa [Nat.cast_one, div_one] at this
  have hva_lb : (a : ℚ) * (1 - 1 / 2 ^ 24) ≤ pairQ fa := by
    have := fl32Pair_lb a 1 one_pos
    rwa [Nat.cast_one, div_one] at this
  have hvT_pos : 0 < pairQ fT :=
    lt_of_lt_of_le (mul_pos hTq heps0lt) hvT_lb
  have hqq : ((fM.1 * 2 ^ fT.2 : Nat) : ℚ) / ((fT.1 * 2 ^ fM.2 : Nat) : ℚ)
      = pairQ fM / pairQ fT := by
    unfold pairQ
    have h1 : ((fT.1 : Nat) : ℚ) ≠ 0 := by
      exact_mod_cast Nat.pos_iff_ne_zero.mp hfT1
    push_cast
    field_simp
    exact Or.inl (mul_comm _ _)
  have hvq_lb : (pairQ fM / pairQ fT) * (1 - 1 / 2 ^ 24) ≤ pairQ fq := by
    have := fl32Pair_lb (fM.1 * 2 ^ fT.2) (fT.1 * 2 ^ fM.2) hden
    rwa [hqq] at this
  have hqT : pairQ fM * (1 - 1 / 2 ^ 24) ≤ pairQ fq * pairQ fT := by
    rw [div_mul_eq_mul_div] at hvq_lb
    exact (div_le_iff₀ hvT_pos).mp hvq_lb
  have hppden : (0 : Nat) < 2 ^ (fq.2 + fa.2) := by positivity
  have hpp : ((fq.1 * fa.1 : Nat) : ℚ) / ((2 ^ (fq.2 + fa.2) : Nat) : ℚ)
      = pairQ fq * pairQ fa := by
    unfold pairQ
    push_cast [pow_add]
    rw [div_mul_div_comm]
  have hvp_lb : (pairQ fq * pairQ fa) * (1 - 1 / 2 ^ 24) ≤ pairQ p := by
    have := fl32Pair_lb (fq.1 * fa.1) (2 ^ (fq.2 + fa.2)) hppden
    rwa [hpp] at this
  have hMq : ((N : ℚ) + 1) ≤ ((M - 1 : Nat) : ℚ) := by
    have h : N + 1 ≤ M - 1 := by omega
    exact_mod_cast h
  have hNq : (N : ℚ) ≤ 21842 := by exact_mod_cast hNle
  have ha0 : (0 : ℚ) ≤ (a : ℚ) := by positivity
  have hTaq : (T : ℚ) ≤ (N : ℚ) * (a : ℚ) := by exact_mod_cast hTa
  have hs0 : (N : ℚ) * (1 + 1 / 2 ^ 24) ≤ ((N : ℚ) + 1) * (1 - 1 / 2 ^ 24) ^ 4 := by
    linarith [hNq]
  have hscal : (T : ℚ) * (1 + 1 / 2 ^ 24)
      ≤ ((M - 1 : Nat) : ℚ) * (a : ℚ) * (1 - 1 / 2 ^ 24) ^ 4 := by
    have h1 : (T : ℚ) * (1 + 1 / 2 ^ 24) ≤ ((N : ℚ) * (a : ℚ)) * (1 + 1 / 2 ^ 24) :=
      mul_le_mul_of_nonneg_right hTaq (by norm_num)
    have h2 : ((N : ℚ) * (a : ℚ)) * (1 + 1 / 2 ^ 24)
        ≤ (((N : ℚ) + 1) * (1 - 1 / 2 ^ 24) ^ 4) * (a : ℚ) := by
      calc ((N : ℚ) * (a : ℚ)) * (1 + 1 / 2 ^ 24)
          = ((N : ℚ) * (1 + 1 / 2 ^ 24)) * (a : ℚ) := by ring
        _ ≤ (((N : ℚ) + 1) * (1 - 1 / 2 ^ 24) ^ 4) * (a : ℚ) :=
            mul_le_mul_of_nonneg_right hs0 ha0
    have h3 : (((N : ℚ) + 1) * (1 - 1 / 2 ^ 24) ^ 4) * (a : ℚ)
        ≤ (((M - 1 : Nat) : ℚ) * (1 - 1 / 2 ^ 24) ^ 4) * (a : ℚ) := by
      apply mul_le_mul_of_nonneg_right _ ha0
      exact mul_le_mul_of_nonneg_right hMq (by positivity)
    calc (T : ℚ) * (1 + 1 / 2 ^ 24) ≤ _ := h1
      _ ≤ _ := h2
      _ ≤ _ := h3
      _ = ((M - 1 : Nat) : ℚ) * (a : ℚ) * (1 - 1 / 2 ^ 24) ^ 4 := by ring
  have hchain : ((M - 1 : Nat) : ℚ) * (a : ℚ) * (1 - 1 / 2 ^ 24) ^ 4
      ≤ pairQ p * ((T : ℚ) * (1 + 1 / 2 ^ 24)) := by
    have hva_nonneg : 0 ≤ pairQ fa := pairQ_nonneg fa
    have hvM_nonneg : 0 ≤ pairQ fM := pairQ_nonneg fM
    calc ((M - 1 : Nat) : ℚ) * (a : ℚ) * (1 - 1 / 2 ^ 24) ^ 4
        = ((((M - 1 : Nat) : ℚ) * (1 - 1 / 2 ^ 24)) * ((a : ℚ) * (1 - 1 / 2 ^ 24)))
            * (1 - 1 / 2 ^ 24) * (1 - 1 / 2 ^ 24) := by ring
      _ ≤ ((pairQ fM * ((a : ℚ) * (1 - 1 / 2 ^ 24))) * (1 - 1 / 2 ^ 24))
            * (1 - 1 / 2 ^ 24) := by
          apply mul_le_mul_of_nonneg_right _ heps0
          apply mul_le_mul_of_nonneg_right _ heps0
          exact mul_le_mul_of_nonneg_right hvM_lb (mul_nonneg ha0 heps0)
      _ ≤ ((pairQ fM * pairQ fa) * (1 - 1 / 2 ^ 24)) * (1 - 1 / 2 ^ 24) := by
          apply mul_le_mul_of_nonneg_right _ heps0
          apply mul_le_mul_of_nonneg_right _ heps0
          exact mul_le_mul_of_nonneg_left hva_lb hvM_nonneg
      _ = ((pairQ fM * (1 - 1 / 2 ^ 24)) * pairQ fa) * (1 - 1 / 2 ^ 24) := by ring
      _ ≤ ((pairQ fq * pairQ fT) * pairQ fa) * (1 - 1 / 2 ^ 24) := by
          apply mul_le_mul_of_nonneg_right _ heps0
          exact mul_le_mul_of_nonneg_right hqT hva_nonneg
      _ = ((pairQ fq * pairQ fa) * (1 - 1 / 2 ^ 24)) * pairQ fT := by ring
      _ ≤ pairQ p * pairQ fT :=
          mul_le_mul_of_nonneg_right hvp_lb (le_of_lt hvT_pos)
      _ ≤ pairQ p * ((T : ℚ) * (1 + 1 / 2 ^ 24)) :=
          mul_le_mul_of_nonneg_left hvT_ub (pairQ_nonneg p)
  have hX : (0 : ℚ) < (T : ℚ) * (1 + 1 / 2 ^ 24) := by positivity
  have hvp1 : (1 : ℚ) ≤ pairQ p := by
    have h1 : (1 : ℚ) * ((T : ℚ) * (1 + 1 / 2 ^ 24))
        ≤ pairQ p * ((T : ℚ) * (1 + 1 / 2 ^ 24)) := by
      rw [one_mul]
      linarith [hscal, hchain]
    exact le_of_mul_le_mul_right h1 hX
  have hple : ((2 ^ p.2 : Nat) : ℚ) ≤ ((p.1 : Nat) : ℚ) := by
    rw [pairQ] at hvp1
    have h2 : (0 : ℚ) < ((2 : ℚ) ^ p.2) := by positivity
    have h3 := (one_le_div h2).mp hvp1
    push_cast
    exact_mod_cast h3
  have hnat : 2 ^ p.2 ≤ p.1 := by exact_mod_cast hple
  exact (Nat.one_le_div_iff (by positivity)).mpr hnat

/-- `(M-1) * (1+ε)^4 < M * (1-ε)` for `1 ≤ M ≤ 65 530`: the slack the
source buys with `cPacketMaxPayloadBytes - 1` dominates four binary32
rounding errors. -/
theorem payload_scalar_lt (M : Nat) (hM1 : 1 ≤ M) (hMle : M ≤ 65530) :
    ((M - 1 : Nat) : ℚ) * (1 + 1 / 2 ^ 24) ^ 4 < (M : ℚ) * (1 - 1 / 2 ^ 24) := by
  have hMq : (M : ℚ) ≤ 65530 := by exact_mod_cast hMle
  have hMsub : ((M - 1 : Nat) : ℚ) = (M : ℚ) - 1 := by
    push_cast [hM1]
    ring
  rw [hMsub]
  nlinarith [hMq]

theorem cPacketMaxPayloadBytes_le (n : Nat) : cPacketMaxPayloadBytes n ≤ 65530 := by
  unfold cPacketMaxPayloadBytes DATA_PACKET_MAX dataPacketHeaderSize
  omega

theorem streamCount_le_avail (M T a : Nat) (hM1 : 1 ≤ M) (hMle : M ≤ 65530) :
    streamCount M T a ≤ a := by
  unfold streamCount
  split
  · exact Nat.le_refl a
  · rename_i h
    have hMT : M ≤ T := Nat.le_of_not_lt h
    have hT : 0 < T := Nat.lt_of_lt_of_le hM1 hMT
    have hub := streamCountProp_ub M T a hT
    have hTq : (0 : ℚ) < (T : ℚ) := by exact_mod_cast hT
    have hMTq : (M : ℚ) ≤ (T : ℚ) := by exact_mod_cast hMT
    have hsc := payload_scalar_lt M hM1 hMle
    have ha0 : (0 : ℚ) ≤ (a : ℚ) := by positivity
    have h2 : ((M - 1 : Nat) : ℚ) * (a : ℚ) * (1 + 1 / 2 ^ 24) ^ 4
        ≤ (a : ℚ) * ((M : ℚ) * (1 - 1 / 2 ^ 24)) := by
      calc ((M - 1 : Nat) : ℚ) * (a : ℚ) * (1 + 1 / 2 ^ 24) ^ 4
          = (((M - 1 : Nat) : ℚ) * (1 + 1 / 2 ^ 24) ^ 4) * (a : ℚ) := by ring
        _ ≤ ((M : ℚ) * (1 - 1 / 2 ^ 24)) * (a : ℚ) :=
            mul_le_mul_of_nonneg_right (le_of_lt hsc) ha0
        _ = (a : ℚ) * ((M : ℚ) * (1 - 1 / 2 ^ 24)) := by ring
    have h3 : (a : ℚ) * ((M : ℚ) * (1 - 1 / 2 ^ 24))
        ≤ (a : ℚ) * ((T : ℚ) * (1 - 1 / 2 ^ 24)) := by
      apply mul_le_mul_of_nonneg_left _ ha0
      exact mul_le_mul_of_nonneg_right hMTq (by norm_num)
    have hfin : ((streamCountProp M T a : Nat) : ℚ) * ((T : ℚ) * (1 - 1 / 2 ^ 24))
        ≤ (a : ℚ) * ((T : ℚ) * (1 - 1 / 2 ^ 24)) := by
      linarith [hub, h2, h3]
    have hXpos : (0 : ℚ) < (T : ℚ) * (1 - 1 / 2 ^ 24) :=
      mul_pos hTq (by norm_num)
    have := le_of_mul_le_mul_right hfin hXpos
    exact_mod_cast this

/-- Any per-stream count is below `maxPayload`, float rounding included:
full-drain counts are below it because the total is, and proportional
counts because the `-1` slack absorbs the rounding (`payload_scalar_lt`). -/
theorem streamCount_lt_maxPayload (M T a : Nat) (hM1 : 1 ≤ M) (hMle : M ≤ 65530)
    (haT : a ≤ T) : streamCount M T a < M := by
  unfold streamCount
  split
  · rename_i h
    exact Nat.lt_of_le_of_lt haT h
  · rename_i h
    have hMT : M ≤ T := Nat.le_of_not_lt h
    have hT : 0 < T := Nat.lt_of_lt_of_le hM1 hMT
    have hub := streamCountProp_ub M T a hT
    have hTq : (0 : ℚ) < (T : ℚ) := by exact_mod_cast hT
    have haTq : (a : ℚ) ≤ (T : ℚ) := by exact_mod_cast haT
    have hsc := payload_scalar_lt M hM1 hMle
    have hM0 : (0 : ℚ) ≤ ((M - 1 : Nat) : ℚ) := by positivity
    have h2 : ((M - 1 : Nat) : ℚ) * (a : ℚ) * (1 + 1 / 2 ^ 24) ^ 4
        ≤ ((M - 1 : Nat) : ℚ) * (T : ℚ) * (1 + 1 / 2 ^ 24) ^ 4 := by
      have hmono := mul_le_mul_of_nonneg_left haTq hM0
      nlinarith [hmono]
    have h3 : ((M - 1 : Nat) : ℚ) * (T : ℚ) * (1 + 1 / 2 ^ 24) ^ 4
        < ((M : ℚ) * (1 - 1 / 2 ^ 24)) * (T : ℚ) := by
      calc ((M - 1 : Nat) : ℚ) * (T : ℚ) * (1 + 1 / 2 ^ 24) ^ 4
          = (((M - 1 : Nat) : ℚ) * (1 + 1 / 2 ^ 24) ^ 4) * (T : ℚ) := by ring
        _ < ((M : ℚ) * (1 - 1 / 2 ^ 24)) * (T : ℚ) :=
            mul_lt_mul_of_pos_right hsc hTq
    have hfin : ((streamCountProp M T a : Nat) : ℚ) * ((T : ℚ) * (1 - 1 / 2 ^ 24))
        < (M : ℚ) * ((T : ℚ) * (1 - 1 / 2 ^ 24)) := by
      nlinarith [hub, h2, h3]
    have hXpos : (0 : ℚ) < (T : ℚ) * (1 - 1 / 2 ^ 24) :=
      mul_pos hTq (by norm_num)
    have := lt_of_mul_lt_mul_right hfin (le_of_lt hXpos)
    exact_mod_cast this

theorem list_mul_sum_le (l : List Nat) (f : Nat → Nat) (X C : ℚ)
    (hpt : ∀ a ∈ l, ((f a : Nat) : ℚ) * X ≤ (a : ℚ) * C) :
    (((l.map f).sum : Nat) : ℚ) * X ≤ ((l.sum : Nat) : ℚ) * C := by
  induction l with
  | nil => simp
  | cons x xs ih =>
    simp only [List.map_cons, List.sum_cons]
    have h1 := hpt x (List.mem_cons_self x xs)
    have h2 := ih (fun a ha => hpt a (List.mem_cons_of_mem x ha))
    push_cast at h1 h2 ⊢
    nlinarith [h1, h2]

/-- When the total is at least `maxPayload`, the proportional counts sum
to strictly less than `maxPayload`: the `-1` slack covers all four
rounding errors at once. -/
theorem counts_sum_lt (avails : List Nat) (M : Nat) (hM1 : 1 ≤ M) (hMle : M ≤ 65530)
    (hfull : M ≤ avails.sum) :
    (avails.map (streamCount M avails.sum)).sum < M := by
  have hT : 0 < avails.sum := Nat.lt_of_lt_of_le hM1 hfull
  have hTq : (0 : ℚ) < (avails.sum : ℚ) := by exact_mod_cast hT
  have hcounts : avails.map (streamCount M avails.sum)
      = avails.map (streamCountProp M avails.sum) := by
    apply List.map_congr_left
    intro a _
    unfold streamCount
    rw [if_neg (Nat.not_lt.mpr hfull)]
  rw [hcounts]
  have hpt : ∀ a ∈ avails,
      ((streamCountProp M avails.sum a : Nat) : ℚ)
          * ((avails.sum : ℚ) * (1 - 1 / 2 ^ 24))
        ≤ (a : ℚ) * (((M - 1 : Nat) : ℚ) * (1 + 1 / 2 ^ 24) ^ 4) := by
    intro a _
    have h := streamCountProp_ub M avails.sum a hT
    linarith [h]
  have hkey := list_mul_sum_le avails (streamCountProp M avails.sum)
    ((avails.sum : ℚ) * (1 - 1 / 2 ^ 24))
    (((M - 1 : Nat) : ℚ) * (1 + 1 / 2 ^ 24) ^ 4) hpt
  have hsc := payload_scalar_lt M hM1 hMle
  have hfin : (((avails.map (streamCountProp M avails.sum)).sum : Nat) : ℚ)
        * ((avails.sum : ℚ) * (1 - 1 / 2 ^ 24))
      < (M : ℚ) * ((avails.sum : ℚ) * (1 - 1 / 2 ^ 24)) := by
    have hstep : ((avails.sum : Nat) : ℚ) * (((M - 1 : Nat) : ℚ) * (1 + 1 / 2 ^ 24) ^ 4)
        < (M : ℚ) * ((avails.sum : ℚ) * (1 - 1 / 2 ^ 24)) := by
      have hmul := mul_lt_mul_of_pos_left hsc hTq
      nlinarith [hmul]
    linarith [hkey, hstep]
  have hXpos : (0 : ℚ) < (avails.sum : ℚ) * (1 - 1 / 2 ^ 24) :=
    mul_pos hTq (by norm_num)
  have := lt_of_mul_lt_mul_right hfin (le_of_lt hXpos)
  exact_mod_cast this

theorem packetCounts_sum_le_of_full (avails : List Nat) (N : Nat)
    (hM : 1 ≤ cPacketMaxPayloadBytes N)
    (hfull : cPacketMaxPayloadBytes N ≤ avails.sum) :
    (packetCounts N avails.sum avails).sum ≤ cPacketMaxPayloadBytes N - 1 := by
  have hlt := counts_sum_lt avails (cPacketMaxPayloadBytes N) hM
    (cPacketMaxPayloadBytes_le N) hfull
  unfold packetCounts
  omega

theorem natDiv_eq_floor_ratio (c T a : Nat) :
    (⌊((c : ℚ) / (T : ℚ)) * (a : ℚ)⌋₊ : Nat) = c * a / T := by
  rw [div_mul_eq_mul_div, ← Nat.cast_mul, Nat.floor_div_nat, Nat.floor_natCast]

/-- Counterexample to **C5** as stated: the per-stream count is the
*single-precision* evaluation of `floor((maxPayload-1)/total * avail)`,
which deviates from the exact rational floor on reachable inputs.  With
two streams holding 32 764 and 32 763 bytes (total 65 527,
`maxPayload = 65 526`), the program's float pipeline gives the first
stream count 32 763 — `fl(65525/65527) = 1 - 2⁻¹⁵` rounds up and the
product `fl((1-2⁻¹⁵)·32764) = 32763.0` exactly — while the exact floor
`⌊65525/65527 · 32764⌋ = 32762`.  The sum check still passes
(32763 + 32762 = 65525 ≤ 65526), so the run is guard-clean. -/
theorem packetWrite_count_float_deviation :
    cPacketMaxPayloadBytes 2 ≤ ([32764, 32763] : List Nat).sum
    ∧ packetCounts 2 ([32764, 32763] : List Nat).sum [32764, 32763] = [32763, 32762]
    ∧ ⌊(((cPacketMaxPayloadBytes 2 - 1 : Nat) : ℚ) / ((65527 : Nat) : ℚ))
        * ((32764 : Nat) : ℚ)⌋₊ = 32762
    ∧ (32763 : Nat) ≠ 32762 := by
  refine ⟨by decide, by decide, ?_, by decide⟩
  rw [natDiv_eq_floor_ratio]
  decide

/-- **C5**, amended: in `packetWrite`, when the total output available is
at least `maxPayload`, the per-stream byte count is the *single-precision*
evaluation of `floor((maxPayload - 1)/totalOutput * outputAvailable(i))` —
`streamCountProp`, one binary32 rounding per conversion and per operation
— which can differ from the exact rational floor (see the counterexample);
the counts still sum to at most `maxPayload` (indeed `maxPayload - 1`):
the `-1` slack absorbs the rounding errors, as the source comment intends.
When the total is below `maxPayload`, `count[i] = outputAvailable(i)`
exactly.  The hypothesis keeps `cPacketMaxPayloadBytes - 1` out of the
`size_t` underflow regime (where the C++ code overruns its packet buffer
and has no defined behaviour). -/
theorem packetWrite_count_formula (avails : List Nat)
    (hM : 1 ≤ cPacketMaxPayloadBytes avails.length) :
    (cPacketMaxPayloadBytes avails.length ≤ avails.sum →
      packetCounts avails.length avails.sum avails
        = avails.map
            (streamCountProp (cPacketMaxPayloadBytes avails.length) avails.sum)
      ∧ (packetCounts avails.length avails.sum avails).sum
          ≤ cPacketMaxPayloadBytes avails.length)
    ∧ (avails.sum < cPacketMaxPayloadBytes avails.length →
      packetCounts avails.length avails.sum avails = avails) := by
  constructor
  · intro hfull
    refine ⟨?_, Nat.le_trans (packetCounts_sum_le_of_full avails _ hM hfull)
      (Nat.sub_le _ _)⟩
    unfold packetCounts
    apply List.map_congr_left
    intro a _
    unfold streamCount
    rw [if_neg (Nat.not_lt.mpr hfull)]
  · intro hlt
    unfold packetCounts streamCount
    have h : ∀ a ∈ avails,
        (if avails.sum < cPacketMaxPayloadBytes avails.length then a
         else streamCountProp (cPacketMaxPayloadBytes avails.length) avails.sum a)
          = id a := by
      intro a _
      rw [if_pos hlt]
      rfl
    rw [List.map_congr_left h, List.map_id]

/-- Witness for the amended C5 at `avails = [70000, 30000]` (two streams,
100 000 bytes pending, payload limit 65 526): the float pipeline yields
counts 45 867 and 19 657, and their sum respects the limit. -/
theorem packetWrite_count_formula_witness :
    cPacketMaxPayloadBytes ([70000, 30000] : List Nat).length
        ≤ ([70000, 30000] : List Nat).sum
    ∧ (packetCounts ([70000, 30000] : List Nat).length
        ([70000, 30000] : List Nat).sum [70000, 30000]).sum
        ≤ cPacketMaxPayloadBytes ([70000, 30000] : List Nat).length
    ∧ packetCounts ([70000, 30000] : List Nat).length
        ([70000, 30000] : List Nat).sum [70000, 30000] = [45867, 19657] :=
  ⟨by decide,
   ((packetWrite_count_formula [70000, 30000] (by decide)).1 (by decide)).2,
   by decide⟩

/-- **C10.** In every `packetWrite` invocation each per-stream byte count
is strictly less than 2^16 (it is bounded by `cPacketMaxPayloadBytes`,
which is below 65 536), so the `static_cast<uint16_t>` into the
`bytestreamBufferLength` field (line 514) never truncates and the stored
values equal the counts.  The bound holds under the binary32 count
arithmetic: full-drain counts carry no float at all, and proportional
counts stay below `maxPayload` because the `-1` slack dominates the
rounding (`payload_scalar_lt`).  The hypothesis keeps the stream count in
the regime where the `size_t` subtraction does not underflow (beyond it
the C++ code overruns its packet buffer). -/
theorem count_fits_uint16 (avails : List Nat)
    (hreg : dataPacketHeaderSize + 2 * avails.length + 1 ≤ DATA_PACKET_MAX) :
    cPacketMaxPayloadBytes avails.length < 2 ^ 16
    ∧ (∀ c ∈ packetCounts avails.length avails.sum avails,
        c < cPacketMaxPayloadBytes avails.length)
    ∧ bsbLengths (packetCounts avails.length avails.sum avails)
        = packetCounts avails.length avails.sum avails := by
  have hMlt : cPacketMaxPayloadBytes avails.length < 2 ^ 16 := by
    unfold cPacketMaxPayloadBytes DATA_PACKET_MAX dataPacketHeaderSize
    omega
  have hM1 : 1 ≤ cPacketMaxPayloadBytes avails.length := by
    unfold cPacketMaxPayloadBytes
    unfold DATA_PACKET_MAX dataPacketHeaderSize at hreg ⊢
    omega
  have hcb : ∀ c ∈ packetCounts avails.length avails.sum avails,
      c < cPacketMaxPayloadBytes avails.length := by
    intro c hc
    obtain ⟨a, ha, rfl⟩ := List.mem_map.mp hc
    exact streamCount_lt_maxPayload _ _ _ hM1 (cPacketMaxPayloadBytes_le _)
      (List.single_le_sum (fun x _ => Nat.zero_le x) a ha)
  refine ⟨hMlt, hcb, ?_⟩
  unfold bsbLengths
  have h : ∀ c ∈ packetCounts avails.length avails.sum avails,
      c % 65536 = id c := by
    intro c hc
    exact Nat.mod_eq_of_lt (Nat.lt_of_lt_of_le (hcb c hc) (Nat.le_of_lt hMlt))
  rw [List.map_congr_left h, List.map_id]

/-- Witness for C10 at `avails = [70000, 30000]`. -/
theorem count_fits_uint16_witness :
    dataPacketHeaderSize + 2 * ([70000, 30000] : List Nat).length + 1
        ≤ DATA_PACKET_MAX
    ∧ (∀ c ∈ packetCounts ([70000, 30000] : List Nat).length
          ([70000, 30000] : List Nat).sum [70000, 30000],
        c < cPacketMaxPayloadBytes ([70000, 30000] : List Nat).length) :=
  ⟨by decide, (count_fits_uint16 [70000, 30000] (by decide)).2.1⟩

theorem padPacketFuel_ok (fuel : Nat) : ∀ pl r : Nat,
    padPacketFuel fuel pl = .ok r →
    r % 4 = 0 ∧ (r = pl ∨ r ≤ DATA_PACKET_MAX - 1) := by
  induction fuel with
  | zero =>
    intro pl r h
    simp [padPacketFuel] at h
  | succ fuel ih =>
    intro pl r h
    unfold padPacketFuel at h
    split at h
    · rename_i h4
      injection h with h1
      exact ⟨h1 ▸ h4, .inl h1.symm⟩
    · split at h
      · simp at h
      · rename_i h4 hguard
        obtain ⟨hr4, hcase⟩ := ih (pl + 1) r h
        refine ⟨hr4, .inr ?_⟩
        rcases hcase with rfl | hle
        · unfold DATA_PACKET_MAX at hguard ⊢
          omega
        · exact hle

/-- **C4.** Every data packet emitted by a successful `packetWrite` or by
`packetWriteZeroRecords` has a length that is a multiple of 4 and at most
65 536 bytes, and whenever zero-padding to a multiple of 4 would exceed
`DATA_PACKET_MAX` the padding loop fails with `ErrorInternal`.  (The
hypothesis of the first part keeps the header-plus-length-array prefix
within the 64 KiB packet buffer, the regime in which the C++ code is
well-defined.  The guard in fact fires slightly before overflow as well:
it also rejects unpadded lengths 65 533..65 535, whose padded length
would exactly reach `DATA_PACKET_MAX`.) -/
theorem packet_length_aligned_bounded :
    (∀ s s1 : WState,
      dataPacketHeaderSize + 2 * s.bytestreams.length ≤ DATA_PACKET_MAX →
      packetWrite s = (none, s1) →
      s1.file.writes = s.file.writes
      ∨ ∃ lo phys L bsb,
          s1.file.writes = s.file.writes ++ [.dataPacket lo phys L bsb]
          ∧ L % 4 = 0 ∧ L ≤ DATA_PACKET_MAX)
    ∧ (∀ s : WState, ∃ lo phys,
        (packetWriteZeroRecords s).file.writes
          = s.file.writes
            ++ [.dataPacket lo phys (padZeroRecords dataPacketHeaderSize) []]
        ∧ padZeroRecords dataPacketHeaderSize % 4 = 0
        ∧ padZeroRecords dataPacketHeaderSize ≤ DATA_PACKET_MAX)
    ∧ (∀ pl, pl % 4 ≠ 0 → DATA_PACKET_MAX < pl + (4 - pl % 4) →
        padPacket pl = .error .internalError) := by
  refine ⟨?_, ?_, ?_⟩
  · intro s s1 hN h
    unfold packetWrite at h
    split at h
    · injection h with h1 h2
      exact .inl (h2 ▸ rfl)
    · split at h
      · injection h with h1
        simp at h1
      · split at h
        · injection h with h1
          simp at h1
        · rename_i L heq
          injection h with h1 h2
          refine .inr ⟨s.file.unusedLogicalStart,
            s.file.l2p s.file.unusedLogicalStart, L, bsbLengths (stateCounts s),
            ?_, ?_, ?_⟩
          · rw [← h2]
            simp [commitDataPacket, FileSt.allocateSpace]
          · exact (padPacketFuel_ok 4 _ L heq).1
          · have hbound := (padPacketFuel_ok 4 _ L heq).2
            have hsum' : (stateCounts s).sum ≤
                cPacketMaxPayloadBytes s.bytestreams.length :=
              Nat.le_of_not_lt (by assumption)
            unfold rawPacketLength at hbound
            unfold cPacketMaxPayloadBytes at hsum'
            unfold DATA_PACKET_MAX dataPacketHeaderSize at *
            omega
  · intro s
    refine ⟨s.file.unusedLogicalStart, s.file.l2p s.file.unusedLogicalStart,
      ?_, by decide, by decide⟩
    simp [packetWriteZeroRecords, commitDataPacket, FileSt.allocateSpace]
  · intro pl h4 hover
    have hge : DATA_PACKET_MAX - 1 ≤ pl := by
      unfold DATA_PACKET_MAX at hover ⊢
      omega
    unfold padPacket padPacketFuel
    rw [if_neg h4, if_pos hge]

theorem padPacketFuel_no_outOfFuel (fuel : Nat) : ∀ pl,
    (4 - pl % 4) % 4 < fuel → padPacketFuel fuel pl ≠ .error .outOfFuel := by
  induction fuel with
  | zero => intro pl h; omega
  | succ fuel ih =>
    intro pl h
    unfold padPacketFuel
    split
    · simp
    · split
      · simp
      · rename_i h4 hguard
        exact ih (pl + 1) (by omega)

/-- `padPacket` never reports fuel exhaustion: the loop pads at most 3
bytes. -/
theorem padPacket_no_outOfFuel (pl : Nat) : padPacket pl ≠ .error .outOfFuel :=
  padPacketFuel_no_outOfFuel 4 pl (by omega)

/-- Complete case analysis of a successful `packetWrite`. -/
theorem packetWrite_ok_cases (s s1 : WState) (h : packetWrite s = (none, s1)) :
    (totalOutputAvailable s = 0 ∧ s1 = s)
    ∨ (totalOutputAvailable s ≠ 0
        ∧ ∃ L, padPacket (rawPacketLength s) = .ok L
            ∧ (stateCounts s).sum ≤ cPacketMaxPayloadBytes s.bytestreams.length
            ∧ s1 = commitDataPacket s (drainStreams s) L (bsbLengths (stateCounts s))) := by
  unfold packetWrite at h
  split at h
  · rename_i h0
    injection h with h1 h2
    exact .inl ⟨h0, h2.symm⟩
  · rename_i h0
    split at h
    · injection h with h1
      simp at h1
    · split at h
      · injection h with h1
        simp at h1
      · rename_i L heq
        injection h with h1 h2
        exact .inr ⟨h0, L, heq, Nat.le_of_not_lt (by assumption), h2.symm⟩

/-- The error side of `packetWrite` never reports fuel exhaustion (its
only error sources are the `VALIDATE_BASIC` check and the padding
guard). -/
theorem packetWrite_no_outOfFuel (s : WState) :
    (packetWrite s).1 ≠ some .outOfFuel := by
  unfold packetWrite
  split
  · simp
  · split
    · simp
    · split
      · rename_i err heq
        intro hc
        simp only [Option.some.injEq] at hc
        exact padPacket_no_outOfFuel (rawPacketLength s) (hc ▸ heq)
      · simp

theorem list_sub_sum (l : List Nat) (f : Nat → Nat) (hf : ∀ a ∈ l, f a ≤ a) :
    (l.map f).sum ≤ l.sum
    ∧ (l.map (fun a => a - f a)).sum = l.sum - (l.map f).sum := by
  induction l with
  | nil => simp
  | cons x xs ih =>
    obtain ⟨ih1, ih2⟩ := ih (fun a ha => hf a (List.mem_cons_of_mem _ ha))
    have hx := hf x (List.mem_cons_self x xs)
    simp only [List.map_cons, List.sum_cons]
    omega

/-- Some element of a nonempty list is at least the average:
`l.sum ≤ l.length * a` for some `a ∈ l`. -/
theorem exists_ge_avg (l : List Nat) (hl : l ≠ []) :
    ∃ a ∈ l, l.sum ≤ l.length * a := by
  induction l with
  | nil => exact absurd rfl hl
  | cons x xs ih =>
    rcases xs with _ | ⟨y, ys⟩
    · exact ⟨x, List.mem_cons_self x [], by simp⟩
    · obtain ⟨a, ha, hge⟩ := ih (by simp)
      rcases Nat.le_total x a with hxa | hax
      · refine ⟨a, List.mem_cons_of_mem x ha, ?_⟩
        simp only [List.sum_cons, List.length_cons]
        calc x + (y :: ys).sum ≤ a + (y :: ys).length * a := Nat.add_le_add hxa hge
          _ = ((y :: ys).length + 1) * a := by ring
      · refine ⟨x, List.mem_cons_self x _, ?_⟩
        simp only [List.sum_cons, List.length_cons]
        have hla : (y :: ys).length * a ≤ (y :: ys).length * x :=
          Nat.mul_le_mul_left _ hax
        calc x + (y :: ys).sum ≤ x + (y :: ys).length * a := Nat.add_le_add_left hge x
          _ ≤ x + (y :: ys).length * x := Nat.add_le_add_left hla x
          _ = ((y :: ys).length + 1) * x := by ring

/-- `stateCounts` as a direct map over the encoders. -/
theorem stateCounts_eq (s : WState) :
    stateCounts s = s.bytestreams.map (fun e =>
      streamCount (cPacketMaxPayloadBytes s.bytestreams.length)
        (totalOutputAvailable s) e.avail) := by
  unfold stateCounts packetCounts
  rw [List.map_map]
  rfl

/-- After `outputRead` drained the chosen counts, the remaining output is
the old total minus the counts' sum. -/
theorem drainStreams_total (s : WState)
    (hM1 : 1 ≤ cPacketMaxPayloadBytes s.bytestreams.length) :
    ((drainStreams s).map EncState.avail).sum
      = totalOutputAvailable s - (stateCounts s).sum := by
  unfold drainStreams
  rw [List.map_map]
  have h := list_sub_sum (s.bytestreams.map EncState.avail)
    (streamCount (cPacketMaxPayloadBytes s.bytestreams.length)
      (totalOutputAvailable s))
    (fun a _ => streamCount_le_avail _ _ a hM1 (cPacketMaxPayloadBytes_le _))
  rw [List.map_map] at h
  have h2 := h.2
  rw [stateCounts_eq]
  calc ((s.bytestreams.map (fun e => e.avail -
          streamCount (cPacketMaxPayloadBytes s.bytestreams.length)
            (totalOutputAvailable s) e.avail))).sum
      = ((s.bytestreams.map EncState.avail).map (fun a => a -
          streamCount (cPacketMaxPayloadBytes s.bytestreams.length)
            (totalOutputAvailable s) a)).sum := by rw [List.map_map]; rfl
    _ = totalOutputAvailable s
        - ((s.bytestreams.map (fun e =>
            streamCount (cPacketMaxPayloadBytes s.bytestreams.length)
              (totalOutputAvailable s) e.avail))).sum := by
          rw [List.map_map] at h2 ⊢
          exact h2
    _ = _ := rfl

/-- When the stream count is at most `cPacketMaxPayloadBytes - 2` and
output is pending, `packetWrite` always selects at least one byte to
send: some stream holds at least the average share, and under
`N + 2 ≤ M` the slack survives the four binary32 rounding errors
(`streamCountProp_pos`). -/
theorem stateCounts_sum_pos (s : WState)
    (hN : s.bytestreams.length + 2 ≤ cPacketMaxPayloadBytes s.bytestreams.length)
    (h0 : 0 < totalOutputAvailable s) :
    0 < (stateCounts s).sum := by
  set M := cPacketMaxPayloadBytes s.bytestreams.length with hMdef
  set T := totalOutputAvailable s with hTdef
  rw [stateCounts_eq, ← hMdef, ← hTdef]
  by_cases hfull : T < M
  · have hmapeq : s.bytestreams.map (fun e => streamCount M T e.avail)
        = s.bytestreams.map EncState.avail := by
      apply List.map_congr_left
      intro e _
      unfold streamCount
      rw [if_pos hfull]
    rw [hmapeq]
    exact h0
  · have hbs_ne : s.bytestreams ≠ [] := by
      intro hnil
      rw [hTdef] at h0
      unfold totalOutputAvailable at h0
      rw [hnil] at h0
      simp at h0
    have hmap_ne : s.bytestreams.map EncState.avail ≠ [] := by
      simpa using hbs_ne
    obtain ⟨amax, hamem, havg⟩ := exists_ge_avg (s.bytestreams.map EncState.avail) hmap_ne
    rw [List.length_map] at havg
    have hsum_eq : (s.bytestreams.map EncState.avail).sum = T := by
      rw [hTdef]
      rfl
    rw [hsum_eq] at havg
    obtain ⟨e, he, rfl⟩ := List.mem_map.mp hamem
    have hNle : s.bytestreams.length ≤ 21842 := by
      have hN2 := hN
      rw [hMdef] at hN2
      unfold cPacketMaxPayloadBytes DATA_PACKET_MAX dataPacketHeaderSize at hN2
      omega
    have hpos : 1 ≤ streamCount M T e.avail := by
      unfold streamCount
      rw [if_neg hfull]
      exact streamCountProp_pos M T e.avail s.bytestreams.length h0 hN hNle havg
    have hmem2 : streamCount M T e.avail
        ∈ s.bytestreams.map (fun e => streamCount M T e.avail) :=
      List.mem_map_of_mem _ he
    have hle := List.single_le_sum
      (fun x (_ : x ∈ s.bytestreams.map (fun e => streamCount M T e.avail)) =>
        Nat.zero_le x) _ hmem2
    omega

/-- A successful `packetWrite` strictly reduces the pending output
whenever the stream count is at most `cPacketMaxPayloadBytes - 2`. -/
theorem packetWrite_decreases (s s1 : WState)
    (hN : s.bytestreams.length + 2 ≤ cPacketMaxPayloadBytes s.bytestreams.length)
    (h0 : 0 < totalOutputAvailable s)
    (h : packetWrite s = (none, s1)) :
    totalOutputAvailable s1 < totalOutputAvailable s := by
  rcases packetWrite_ok_cases s s1 h with ⟨hz, _⟩ | ⟨_, L, _, _, hs1⟩
  · omega
  · have hM1 : 1 ≤ cPacketMaxPayloadBytes s.bytestreams.length := by omega
    have hpos := stateCounts_sum_pos s hN h0
    have hsub := drainStreams_total s hM1
    calc totalOutputAvailable s1
        = ((drainStreams s).map EncState.avail).sum := by rw [hs1]; rfl
      _ = totalOutputAvailable s - (stateCounts s).sum := hsub
      _ < totalOutputAvailable s := by omega

theorem flush_regsZero (s : WState) : ∀ e ∈ (flush s).bytestreams, e.reg = 0 := by
  intro e he
  unfold flush at he
  obtain ⟨e0, _, rfl⟩ := List.mem_map.mp he
  rfl

theorem flush_eq_of_regsZero (s : WState)
    (h : ∀ e ∈ s.bytestreams, e.reg = 0) : flush s = s := by
  unfold flush
  have h2 : ∀ e ∈ s.bytestreams, flushStream e = id e := by
    intro e he
    have hr := h e he
    cases e
    unfold flushStream
    simp_all
  rw [List.map_congr_left h2, List.map_id]

/-- With all registers flushed and the stream count small enough, the
drain loop of `close` never exhausts a fuel bound of the pending output:
the loop terminates within `totalOutputAvailable` iterations. -/
theorem drainLoop_no_outOfFuel : ∀ (fuel : Nat) (s : WState),
    s.bytestreams.length + 2 ≤ cPacketMaxPayloadBytes s.bytestreams.length →
    (∀ e ∈ s.bytestreams, e.reg = 0) →
    totalOutputAvailable s ≤ fuel →
    (drainLoop fuel s).1 ≠ some .outOfFuel := by
  intro fuel
  induction fuel with
  | zero =>
    intro s hN hreg hf
    unfold drainLoop
    rw [if_pos (by omega)]
    simp
  | succ fuel ih =>
    intro s hN hreg hf
    unfold drainLoop
    split
    · simp
    · rename_i hT
      rcases hpw : packetWrite s with ⟨err, s1⟩
      cases err with
      | some e =>
        simp only [hpw]
        intro hc
        simp only [Option.some.injEq] at hc
        have := packetWrite_no_outOfFuel s
        rw [hpw] at this
        exact this (by rw [hc])
      | none =>
        simp only [hpw]
        rcases packetWrite_ok_cases s s1 hpw with ⟨hz, rfl⟩ | ⟨h0, L, _, _, hs1⟩
        · exact absurd hz hT
        · have hdec := packetWrite_decreases s s1 hN (Nat.pos_of_ne_zero hT) hpw
          have hbs1 : s1.bytestreams = drainStreams s := by
            rw [hs1]
            rfl
          have hreg1 : ∀ e ∈ s1.bytestreams, e.reg = 0 := by
            rw [hbs1]
            unfold drainStreams
            intro e1 he1
            obtain ⟨e, he, rfl⟩ := List.mem_map.mp he1
            exact hreg e he
          have hlen1 : s1.bytestreams.length = s.bytestreams.length := by
            rw [hbs1]
            exact List.length_map _ _
          have hfl : flush s1 = s1 := flush_eq_of_regsZero s1 hreg1
          rw [hfl]
          exact ih s1 (by rw [hlen1]; exact hN) hreg1 (by omega)

/-- **C6**, amended: the drain loop of `close` — while the sum of
`outputAvailable` over all encoders is positive, call `packetWrite` then
`flush` — terminates *provided the number of bytestreams N satisfies
`N + 2 ≤ cPacketMaxPayloadBytes` (N ≤ 21 842)*: under that bound each
successful `packetWrite` strictly reduces the sum whenever it is
positive — the heaviest stream's single-precision count survives the
four binary32 roundings — and a fuel bound of the pending byte count is
never exhausted.  Without such a bound the claim fails: see the
counterexample, where `packetWrite` rounds every per-stream count to
zero and drains nothing; float rounding also defeats the next weaker
bound `N + 1 ≤ cPacketMaxPayloadBytes` (at N = 21 843 with 41 bytes per
stream, `fl(fl(1/41)·41) < 1` floors every count to zero). -/
theorem drain_terminates_of_streams_small :
    (∀ s s1 : WState,
      s.bytestreams.length + 2 ≤ cPacketMaxPayloadBytes s.bytestreams.length →
      0 < totalOutputAvailable s →
      packetWrite s = (none, s1) →
      totalOutputAvailable s1 < totalOutputAvailable s)
    ∧ (∀ (fuel : Nat) (s : WState),
      s.bytestreams.length + 2 ≤ cPacketMaxPayloadBytes s.bytestreams.length →
      (∀ e ∈ s.bytestreams, e.reg = 0) →
      totalOutputAvailable s ≤ fuel →
      (drainLoop fuel s).1 ≠ some .outOfFuel) :=
  ⟨packetWrite_decreases, drainLoop_no_outOfFuel⟩

/-- Witness for the amended C6 at the one-stream example state. -/
theorem drain_terminates_of_streams_small_witness :
    totalOutputAvailable (packetWrite exampleState).2
        < totalOutputAvailable exampleState
    ∧ (drainLoop 5 exampleState).1 ≠ some Err.outOfFuel :=
  ⟨drain_terminates_of_streams_small.1 exampleState (packetWrite exampleState).2
      (by decide) (by decide) (Prod.ext (by decide) rfl),
   drain_terminates_of_streams_small.2 5 exampleState (by decide) (by decide)
      (by decide)⟩

/-- Counterexample to **C6** as stated: with 21 844 streams holding one
pending byte each, `packetWrite` succeeds and writes a data packet but
drains nothing — the positive sum of `outputAvailable` does not decrease,
so the drain loop of `close` makes no progress on this state. -/
theorem packetWrite_no_progress_example :
    0 < totalOutputAvailable manyStreamsState
    ∧ (packetWrite manyStreamsState).1 = none
    ∧ totalOutputAvailable (packetWrite manyStreamsState).2
        = totalOutputAvailable manyStreamsState
    ∧ (packetWrite manyStreamsState).2.file.writes.length
        = manyStreamsState.file.writes.length + 1 := by
  have hbs : manyStreamsState.bytestreams = List.replicate 21844 oneByteEnc := rfl
  have hlen : manyStreamsState.bytestreams.length = 21844 := by
    rw [hbs, List.length_replicate]
  have htot : totalOutputAvailable manyStreamsState = 21844 := by
    rw [totalOutputAvailable, hbs, List.map_replicate, List.sum_replicate]
    simp [oneByteEnc, smul_eq_mul]
  have hcounts : stateCounts manyStreamsState = List.replicate 21844 0 := by
    rw [stateCounts_eq]
    simp only [hbs, List.length_replicate, List.map_replicate, htot]
    rw [show streamCount (cPacketMaxPayloadBytes 21844) 21844 oneByteEnc.avail = 0
      from by decide]
  have hsum0 : (stateCounts manyStreamsState).sum = 0 := by
    rw [hcounts, List.sum_replicate]
    simp
  have hraw : rawPacketLength manyStreamsState = 43694 := by
    rw [rawPacketLength, hlen, hsum0]
    decide
  have hdrain : drainStreams manyStreamsState = List.replicate 21844 oneByteEnc := by
    rw [drainStreams]
    simp only [hbs, List.length_replicate, List.map_replicate, htot]
    exact congrArg (List.replicate 21844) (by decide)
  have hpw : packetWrite manyStreamsState
      = (none, commitDataPacket manyStreamsState (drainStreams manyStreamsState)
          43696 (bsbLengths (stateCounts manyStreamsState))) := by
    rw [packetWrite]
    rw [if_neg (by rw [htot]; decide)]
    rw [if_neg (by rw [hlen, hsum0]; decide)]
    rw [hraw, show padPacket 43694 = Except.ok 43696 from by decide]
  have hcommitbs : (commitDataPacket manyStreamsState (drainStreams manyStreamsState)
      43696 (bsbLengths (stateCounts manyStreamsState))).bytestreams
      = drainStreams manyStreamsState := by
    rw [commitDataPacket]
  have hcommitw : (commitDataPacket manyStreamsState (drainStreams manyStreamsState)
      43696 (bsbLengths (stateCounts manyStreamsState))).file.writes.length
      = manyStreamsState.file.writes.length + 1 := by
    rw [commitDataPacket]
    simp [FileSt.allocateSpace]
  refine ⟨by rw [htot]; decide, by rw [hpw], ?_, ?_⟩
  · rw [hpw]
    show totalOutputAvailable (commitDataPacket _ _ _ _) = _
    rw [totalOutputAvailable, hcommitbs, hdrain, htot, List.map_replicate,
      List.sum_replicate]
    simp [oneByteEnc, smul_eq_mul]
  · rw [hpw]
    exact hcommitw

/-- Witness for C4: the one-stream example state emits an aligned,
bounded packet, the zero-record packet is 8 bytes, and `padPacket`
rejects length 65 537. -/
theorem packet_length_aligned_bounded_witness :
    ((packetWrite exampleState).2.file.writes = exampleState.file.writes
      ∨ ∃ lo phys L bsb,
          (packetWrite exampleState).2.file.writes
            = exampleState.file.writes ++ [.dataPacket lo phys L bsb]
          ∧ L % 4 = 0 ∧ L ≤ DATA_PACKET_MAX)
    ∧ padZeroRecords dataPacketHeaderSize = 8
    ∧ padPacket 65537 = .error .internalError :=
  ⟨(packet_length_aligned_bounded.1 exampleState (packetWrite exampleState).2
      (by decide) (Prod.ext (by decide) rfl)),
   by decide,
   packet_length_aligned_bounded.2.2 65537 (by decide) (by decide)⟩

/-- Counterexample to **C3** as stated: on a writer bound to buffers of
capacities 10 and 5, `write(7)` exceeds the capacity of the second
buffer, yet the call does not fail with `BadAPIArgument` — only the first
buffer's capacity is checked (line 302). -/
theorem write_overCapacity_second_buffer_no_error :
    (∃ b ∈ twoBufferState.sbufs, b.capacity < 7)
    ∧ (write 20 7 twoBufferState).1 ≠ some Err.badAPIArgument := by
  constructor
  · decide
  · decide

/-- **C3**, amended: `write(n)` with `n > 0` on an open writer checks the
requested count only against the FIRST bound buffer's capacity
(line 302): if `n` exceeds it, the call fails with `BadAPIArgument`
before any mutation, so the writer state is unchanged and remains usable;
the capacities of the other buffers are not consulted. -/
theorem write_overCapacity_first_buffer_badAPIArgument
    (fuel n : Nat) (s : WState) (b0 : SDBuf) (rest : List SDBuf)
    (hopen : s.isOpen = true) (hn : n ≠ 0)
    (hbufs : s.sbufs = b0 :: rest) (hcap : b0.capacity < n) :
    write fuel n s = (some .badAPIArgument, s) := by
  unfold write
  rw [if_neg (fun h => h hopen), if_neg hn]
  simp only [hbufs]
  rw [if_pos hcap]

/-- Witness for the amended C3: `write(11)` on capacities (10, 5) fails
with `BadAPIArgument` and leaves the state unchanged; the writer is still
usable — the subsequent `write(5)` succeeds. -/
theorem write_overCapacity_first_buffer_badAPIArgument_witness :
    write 20 11 twoBufferState = (some Err.badAPIArgument, twoBufferState)
    ∧ (write 20 5 twoBufferState).1 = none :=
  ⟨write_overCapacity_first_buffer_badAPIArgument 20 11 twoBufferState _ _
      rfl (by decide) rfl (by decide),
   by decide⟩

/-- Counterexample to **C8** as stated: after a completed first `close`,
a second `close` returns without error but decrements the enclosing
file's writer counter again (the decrement precedes the `isOpen` check,
lines 158-169), so it does mutate state: the counter goes from 0 to -1. -/
theorem second_close_decrements_writerCount :
    (close 20 exampleState).1 = none
    ∧ (close 20 exampleState).2.file.writerCount = 0
    ∧ (close 20 (close 20 exampleState).2).1 = none
    ∧ (close 20 (close 20 exampleState).2).2.file.writerCount = -1 := by
  refine ⟨?_, ?_, ?_, ?_⟩ <;> decide

theorem close_closed_eq (fuel : Nat) (s : WState)
    (hclosed : s.isOpen = false) :
    close fuel s = (none,
      { s with file := { s.file with writerCount := s.file.writerCount - 1 } }) := by
  simp [close, decrCounter, hclosed]

/-- **C8**, amended: `close` on an already-closed writer is a no-op that
returns without error, performs no file writes and changes no writer
field — except that it always decrements the enclosing file's writer
counter once more before the `isOpen` check. -/
theorem close_on_closed_writer_noop (fuel : Nat) (s : WState)
    (hclosed : s.isOpen = false) :
    close fuel s = (none,
      { s with file := { s.file with writerCount := s.file.writerCount - 1 } }) :=
  close_closed_eq fuel s hclosed

/-- Witness for the amended C8 at a concrete closed writer. -/
theorem close_on_closed_writer_noop_witness :
    close 5 closedState = (none,
      { closedState with file :=
        { closedState.file with writerCount := closedState.file.writerCount - 1 } }) :=
  close_on_closed_writer_noop 5 closedState rfl

/-- **C9.** The two-argument `write(sbufs, n)` overload validates and
installs the new buffers before checking that the writer is open
(lines 277-293): on a closed writer, a buffer sequence of a different
length fails with `BuffersNotCompatible` (not `WriterNotOpen`) and leaves
the stored buffers unchanged, while a compatible sequence is installed
into the writer before the call fails with `WriterNotOpen`. -/
theorem write2_closed_writer_buffer_behavior
    (fuel n : Nat) (s : WState) (newBufs : List SDBuf)
    (hclosed : s.isOpen = false) (hne : s.sbufs ≠ []) :
    (s.sbufs.length ≠ newBufs.length →
      writeWithBuffers fuel newBufs n s = (some .buffersNotCompatible, s))
    ∧ ((s.sbufs.zip newBufs).all (fun p => checkCompatible p.1 p.2)
        ∧ s.sbufs.length = newBufs.length
        ∧ checkBuffers s.protoPaths newBufs →
      writeWithBuffers fuel newBufs n s
        = (some .writerNotOpen, { s with sbufs := newBufs })) := by
  have hemp : s.sbufs.isEmpty = false := by
    rcases hsb : s.sbufs with _ | ⟨b, bs⟩
    · exact absurd hsb hne
    · rfl
  constructor
  · intro hlen
    unfold writeWithBuffers setBuffers
    rw [hemp]
    simp only [Bool.false_eq_true, if_false]
    rw [if_pos hlen]
  · rintro ⟨hcompat, hlen, hcheck⟩
    unfold writeWithBuffers setBuffers
    rw [hemp]
    simp only [Bool.false_eq_true, if_false]
    rw [if_neg (by omega), if_neg (by rw [hcompat]; simp), if_neg (by rw [hcheck]; simp)]
    show write fuel n { s with sbufs := newBufs }
        = (some .writerNotOpen, { s with sbufs := newBufs })
    unfold write
    rw [if_pos (by simp [hclosed])]

/-- Witness for C9 at a concrete closed writer: two new buffers trigger
`BuffersNotCompatible`; one compatible buffer is installed and the call
fails with `WriterNotOpen`. -/
theorem write2_closed_writer_buffer_behavior_witness :
    writeWithBuffers 20
        [{ pathName := "x", capacity := 3, typeTag := 1, stride := 4 },
         { pathName := "x", capacity := 3, typeTag := 1, stride := 4 }] 2 closedState
      = (some Err.buffersNotCompatible, closedState)
    ∧ writeWithBuffers 20
        [{ pathName := "x", capacity := 3, typeTag := 1, stride := 4 }] 2 closedState
      = (some Err.writerNotOpen,
         { closedState with
           sbufs := [{ pathName := "x", capacity := 3, typeTag := 1, stride := 4 }] }) :=
  ⟨(write2_closed_writer_buffer_behavior 20 2 closedState _ rfl (by decide)).1
      (by decide),
   (write2_closed_writer_buffer_behavior 20 2 closedState _ rfl (by decide)).2
      (by refine ⟨?_, ?_, ?_⟩ <;> decide)⟩

theorem headD_append_of_ne_nil (l l2 : List Nat) (d : Nat) (h : l ≠ []) :
    (l ++ l2).headD d = l.headD d := by
  cases l with
  | nil => exact absurd rfl h
  | cons a as => rfl

theorem dataPacketOffsets_append (ws1 ws2 : List WriteRec) :
    dataPacketOffsets (ws1 ++ ws2)
      = dataPacketOffsets ws1 ++ dataPacketOffsets ws2 := by
  unfold dataPacketOffsets
  rw [List.filterMap_append]

theorem indexPacketRecs_append (ws1 ws2 : List WriteRec) :
    indexPacketRecs (ws1 ++ ws2) = indexPacketRecs ws1 ++ indexPacketRecs ws2 := by
  unfold indexPacketRecs
  rw [List.filterMap_append]

theorem sectionHeaderRecs_append (ws1 ws2 : List WriteRec) :
    sectionHeaderRecs (ws1 ++ ws2)
      = sectionHeaderRecs ws1 ++ sectionHeaderRecs ws2 := by
  unfold sectionHeaderRecs
  rw [List.filterMap_append]

theorem frame_refl (s : WState) : FrameNoIndex s s :=
  ⟨rfl, rfl, rfl, rfl, rfl⟩

theorem frame_trans {a b c : WState} (h1 : FrameNoIndex a b)
    (h2 : FrameNoIndex b c) : FrameNoIndex a c :=
  ⟨h2.1.trans h1.1, h2.2.1.trans h1.2.1, h2.2.2.1.trans h1.2.2.1,
   h2.2.2.2.1.trans h1.2.2.2.1, h2.2.2.2.2.trans h1.2.2.2.2⟩

theorem commit_writes (s : WState) (bs1 : List EncState) (L : Nat)
    (bsb : List Nat) :
    (commitDataPacket s bs1 L bsb).file.writes
      = s.file.writes ++ [.dataPacket s.file.unusedLogicalStart
          (s.file.l2p s.file.unusedLogicalStart) L bsb] := rfl

theorem commit_invData (s : WState) (bs1 : List EncState) (L : Nat)
    (bsb : List Nat) (hInv : InvData s) :
    InvData (commitDataPacket s bs1 L bsb)
    ∧ FrameNoIndex s (commitDataPacket s bs1 L bsb) := by
  obtain ⟨h1, h2⟩ := hInv
  have hw := commit_writes s bs1 L bsb
  refine ⟨⟨?_, ?_⟩, ?_, ?_, rfl, rfl, rfl⟩
  · have hphys : (commitDataPacket s bs1 L bsb).dataPhysicalOffset
        = (if s.dataPacketsCount = 0 then s.file.l2p s.file.unusedLogicalStart
           else s.dataPhysicalOffset) := rfl
    rw [hphys]
    unfold firstDataOffset
    rw [hw, dataPacketOffsets_append]
    by_cases h0 : s.dataPacketsCount = 0
    · have hnil : dataPacketOffsets s.file.writes = [] := by
        rw [h0] at h2
        exact List.length_eq_zero.mp h2.symm
      rw [if_pos h0, hnil]
      rfl
    · have hne : dataPacketOffsets s.file.writes ≠ [] := by
        intro hn
        rw [hn] at h2
        exact h0 (by rw [h2]; rfl)
      rw [if_neg h0, headD_append_of_ne_nil _ _ _ hne]
      exact h1
  · have hcnt : (commitDataPacket s bs1 L bsb).dataPacketsCount
        = s.dataPacketsCount + 1 := rfl
    rw [hcnt, hw, dataPacketOffsets_append, List.length_append, h2]
    rfl
  · rw [hw, indexPacketRecs_append]
    show indexPacketRecs s.file.writes ++ [] = indexPacketRecs s.file.writes
    rw [List.append_nil]
  · rw [hw, sectionHeaderRecs_append]
    show sectionHeaderRecs s.file.writes ++ [] = sectionHeaderRecs s.file.writes
    rw [List.append_nil]

theorem zeroRecords_invData (s : WState) (hInv : InvData s) :
    InvData (packetWriteZeroRecords s)
    ∧ FrameNoIndex s (packetWriteZeroRecords s)
    ∧ (packetWriteZeroRecords s).recordCount = s.recordCount
    ∧ (packetWriteZeroRecords s).dataPacketsCount = s.dataPacketsCount + 1 :=
  ⟨(commit_invData s s.bytestreams _ [] hInv).1,
   (commit_invData s s.bytestreams _ [] hInv).2, rfl, rfl⟩

theorem packetWrite_invData (s s1 : WState) (hInv : InvData s)
    (h : packetWrite s = (none, s1)) :
    InvData s1 ∧ FrameNoIndex s s1 ∧ s1.recordCount = s.recordCount
    ∧ s.dataPacketsCount ≤ s1.dataPacketsCount := by
  rcases packetWrite_ok_cases s s1 h with ⟨_, rfl⟩ | ⟨_, L, _, _, hs1⟩
  · exact ⟨hInv, frame_refl _, rfl, Nat.le_refl _⟩
  · subst hs1
    obtain ⟨hI, hF⟩ := commit_invData s (drainStreams s) L
      (bsbLengths (stateCounts s)) hInv
    exact ⟨hI, hF, rfl, Nat.le_succ _⟩

theorem drainLoop_done (fuel : Nat) (s : WState)
    (h : totalOutputAvailable s = 0) : drainLoop fuel s = (none, s) := by
  unfold drainLoop
  rw [if_pos h]

theorem drainLoop_succ (fuel : Nat) (s : WState)
    (h : totalOutputAvailable s ≠ 0) :
    drainLoop (fuel + 1) s
      = match packetWrite s with
        | (some err, s1) => (some err, s1)
        | (none, s1) => drainLoop fuel (flush s1) := by
  conv_lhs => unfold drainLoop
  rw [if_neg h]

theorem drainLoop_zero (s : WState) (h : totalOutputAvailable s ≠ 0) :
    drainLoop 0 s = (some .outOfFuel, s) := by
  unfold drainLoop
  rw [if_neg h]

theorem writeLoop_done (fuel endIdx : Nat) (s : WState)
    (h : totalRecordCount endIdx s = 0) :
    writeLoop fuel endIdx s = (none, s) := by
  unfold writeLoop
  rw [if_pos h]

theorem writeLoop_zero (endIdx : Nat) (s : WState)
    (h : totalRecordCount endIdx s ≠ 0) :
    writeLoop 0 endIdx s = (some .outOfFuel, s) := by
  unfold writeLoop
  rw [if_neg h]

theorem writeLoop_succ (fuel endIdx : Nat) (s : WState)
    (h : totalRecordCount endIdx s ≠ 0) :
    writeLoop (fuel + 1) endIdx s
      = if E57_TARGET_PACKET_SIZE ≤ currentPacketSize s then
          match packetWrite s with
          | (some err, s1) => (some err, s1)
          | (none, s1) => writeLoop fuel endIdx s1
        else writeLoop fuel endIdx (processAll endIdx s) := by
  conv_lhs => unfold writeLoop
  rw [if_neg h]

theorem drainLoop_invData : ∀ (fuel : Nat) (s s1 : WState), InvData s →
    drainLoop fuel s = (none, s1) →
    InvData s1 ∧ FrameNoIndex s s1 ∧ s1.recordCount = s.recordCount
    ∧ s.dataPacketsCount ≤ s1.dataPacketsCount := by
  intro fuel
  induction fuel with
  | zero =>
    intro s s1 hInv h
    by_cases hT : totalOutputAvailable s = 0
    · rw [drainLoop_done 0 s hT] at h
      injection h with h1 h2
      subst h2
      exact ⟨hInv, frame_refl _, rfl, Nat.le_refl _⟩
    · rw [drainLoop_zero s hT] at h
      simp at h
  | succ fuel ih =>
    intro s s1 hInv h
    by_cases hT : totalOutputAvailable s = 0
    · rw [drainLoop_done _ s hT] at h
      injection h with h1 h2
      subst h2
      exact ⟨hInv, frame_refl _, rfl, Nat.le_refl _⟩
    · rw [drainLoop_succ fuel s hT] at h
      split at h
      · simp at h
      · rename_i sM heq
        obtain ⟨a1, a2, a3, a4⟩ := packetWrite_invData s sM hInv heq
        obtain ⟨b1, b2, b3, b4⟩ := ih (flush sM) s1 a1 h
        exact ⟨b1, frame_trans (frame_trans a2 (frame_refl _)) b2,
          b3.trans a3, Nat.le_trans a4 b4⟩

theorem writeLoop_invData : ∀ (fuel endIdx : Nat) (s s1 : WState), InvData s →
    writeLoop fuel endIdx s = (none, s1) →
    InvData s1 ∧ FrameNoIndex s s1 ∧ s1.recordCount = s.recordCount
    ∧ s.dataPacketsCount ≤ s1.dataPacketsCount := by
  intro fuel
  induction fuel with
  | zero =>
    intro endIdx s s1 hInv h
    by_cases hT : totalRecordCount endIdx s = 0
    · rw [writeLoop_done 0 endIdx s hT] at h
      injection h with h1 h2
      subst h2
      exact ⟨hInv, frame_refl _, rfl, Nat.le_refl _⟩
    · rw [writeLoop_zero endIdx s hT] at h
      simp at h
  | succ fuel ih =>
    intro endIdx s s1 hInv h
    by_cases hT : totalRecordCount endIdx s = 0
    · rw [writeLoop_done _ endIdx s hT] at h
      injection h with h1 h2
      subst h2
      exact ⟨hInv, frame_refl _, rfl, Nat.le_refl _⟩
    · rw [writeLoop_succ fuel endIdx s hT] at h
      split at h
      · split at h
        · simp at h
        · rename_i sM heq
          obtain ⟨a1, a2, a3, a4⟩ := packetWrite_invData s sM hInv heq
          obtain ⟨b1, b2, b3, b4⟩ := ih endIdx sM s1 a1 h
          exact ⟨b1, frame_trans a2 b2, b3.trans a3, Nat.le_trans a4 b4⟩
      · obtain ⟨b1, b2, b3, b4⟩ := ih endIdx (processAll endIdx s) s1 hInv h
        exact ⟨b1, frame_trans (frame_refl _) b2, b3, b4⟩

theorem setBuffers_ok (nb : List SDBuf) (s s1 : WState)
    (h : setBuffers nb s = (none, s1)) : s1 = { s with sbufs := nb } := by
  unfold setBuffers at h
  split at h
  · split at h
    · injection h with h1 h2
      exact h2.symm
    · simp at h
  · split at h
    · simp at h
    · split at h
      · simp at h
      · split at h
        · simp at h
        · injection h with h1 h2
          exact h2.symm

theorem write_invData (fuel n : Nat) (s s1 : WState) (hInv : InvData s)
    (h : write fuel n s = (none, s1)) :
    InvData s1 ∧ FrameNoIndex s s1 ∧ s1.recordCount = s.recordCount + n
    ∧ s.dataPacketsCount ≤ s1.dataPacketsCount
    ∧ (n = 0 → s.dataPacketsCount + 1 ≤ s1.dataPacketsCount) := by
  unfold write at h
  split at h
  · simp at h
  · split at h
    · rename_i h0
      obtain ⟨_, rfl⟩ : none = (none : Option Err) ∧ packetWriteZeroRecords s = s1 :=
        Prod.mk.injEq _ _ _ _ ▸ h
      obtain ⟨a, b, c, d⟩ := zeroRecords_invData s hInv
      subst h0
      exact ⟨a, b, by rw [c, Nat.add_zero], by rw [d]; omega,
        fun _ => Nat.le_of_eq d.symm⟩
    · rename_i hn0
      split at h
      · simp at h
      · split at h
        · simp at h
        · split at h
          · simp at h
          · rename_i sM heq
            obtain ⟨_, rfl⟩ : none = (none : Option Err)
                ∧ { sM with recordCount := sM.recordCount + n } = s1 :=
              Prod.mk.injEq _ _ _ _ ▸ h
            obtain ⟨a, b, c, d⟩ := writeLoop_invData fuel _ s sM hInv heq
            refine ⟨a, b, ?_, d, fun h0 => absurd h0 hn0⟩
            show sM.recordCount + n = s.recordCount + n
            rw [c]

/-- What a completed `close` on an open writer produces: the drained
writer is marked closed, exactly one index packet and one section header
record are appended, and the header fields tie back to the write log. -/
theorem close_ok (fuel : Nat) (s s2 : WState)
    (hopen : s.isOpen = true) (hID : InvData s)
    (hidx : indexPacketRecs s.file.writes = [])
    (hhdr : sectionHeaderRecs s.file.writes = [])
    (h : close fuel s = (none, s2)) :
    InvData s2 ∧ s2.isOpen = false
    ∧ s2.indexPacketsCount = s.indexPacketsCount + 1
    ∧ s2.recordCount = s.recordCount
    ∧ s.dataPacketsCount ≤ s2.dataPacketsCount
    ∧ ∃ idxLo idxPhys hdr,
        indexPacketRecs s2.file.writes
          = [(idxLo, idxPhys, indexPacketHeaderSize + indexEntrySize)]
        ∧ sectionHeaderRecs s2.file.writes = [(s.sectionHeaderLogicalStart, hdr)]
        ∧ hdr.dataPhysicalOffset = firstDataOffset s2.file.writes
        ∧ hdr.indexPhysicalOffset = idxPhys
        ∧ hdr.sectionLogicalLength
            = s2.file.unusedLogicalStart - s.sectionHeaderLogicalStart
        ∧ s2.file.unusedLogicalStart
            = idxLo + (indexPacketHeaderSize + indexEntrySize) := by
  simp only [close] at h
  rw [if_neg (not_not_intro (show (decrCounter s).isOpen = true from hopen))] at h
  split at h
  · simp at h
  · rename_i s1 heq
    obtain ⟨_, rfl⟩ : none = (none : Option Err) ∧ finishClose s1 = s2 :=
      Prod.mk.injEq _ _ _ _ ▸ h
    obtain ⟨hI1, hF1, hrc1, hm1⟩ :=
      drainLoop_invData fuel (flush (markClosed (decrCounter s))) s1
        (show InvData (flush (markClosed (decrCounter s))) from hID) heq
    obtain ⟨f1, f2, f3, f4, f5⟩ := hF1
    have hidx1 : indexPacketRecs s1.file.writes = [] :=
      f1.trans (show indexPacketRecs
        (flush (markClosed (decrCounter s))).file.writes = [] from hidx)
    have hhdr1 : sectionHeaderRecs s1.file.writes = [] :=
      f2.trans (show sectionHeaderRecs
        (flush (markClosed (decrCounter s))).file.writes = [] from hhdr)
    have hic1 : s1.indexPacketsCount = s.indexPacketsCount := f3
    have hshls1 : s1.sectionHeaderLogicalStart = s.sectionHeaderLogicalStart := f5
    have hrc : s1.recordCount = s.recordCount := hrc1
    have hm : s.dataPacketsCount ≤ s1.dataPacketsCount := hm1
    obtain ⟨hd1, hc1⟩ := hI1
    have hw2 : (finishClose s1).file.writes
        = s1.file.writes
          ++ [.indexPacket s1.file.unusedLogicalStart
                (s1.file.l2p s1.file.unusedLogicalStart)
                (indexPacketHeaderSize + indexEntrySize) s1.dataPhysicalOffset]
          ++ [.sectionHeader s1.sectionHeaderLogicalStart
                { sectionLogicalLength :=
                    s1.file.unusedLogicalStart + (indexPacketHeaderSize + indexEntrySize)
                      - s1.sectionHeaderLogicalStart
                  dataPhysicalOffset := s1.dataPhysicalOffset
                  indexPhysicalOffset := s1.file.l2p s1.file.unusedLogicalStart }] := rfl
    have hfrontier : (finishClose s1).file.unusedLogicalStart
        = s1.file.unusedLogicalStart + (indexPacketHeaderSize + indexEntrySize) := rfl
    have hisOpen2 : (finishClose s1).isOpen = s1.isOpen := rfl
    have hic2 : (finishClose s1).indexPacketsCount = s1.indexPacketsCount + 1 := rfl
    have hrc2 : (finishClose s1).recordCount = s1.recordCount := rfl
    have hdp2 : (finishClose s1).dataPhysicalOffset = s1.dataPhysicalOffset := rfl
    have hdc2 : (finishClose s1).dataPacketsCount = s1.dataPacketsCount := rfl
    have hoffs : dataPacketOffsets (finishClose s1).file.writes
        = dataPacketOffsets s1.file.writes := by
      rw [hw2, dataPacketOffsets_append, dataPacketOffsets_append]
      show dataPacketOffsets s1.file.writes ++ [] ++ [] = _
      simp
    have hirecs : indexPacketRecs (finishClose s1).file.writes
        = [(s1.file.unusedLogicalStart, s1.file.l2p s1.file.unusedLogicalStart,
            indexPacketHeaderSize + indexEntrySize)] := by
      rw [hw2, indexPacketRecs_append, indexPacketRecs_append, hidx1]
      rfl
    have hhrecs : sectionHeaderRecs (finishClose s1).file.writes
        = [(s1.sectionHeaderLogicalStart,
            ({ sectionLogicalLength :=
                 s1.file.unusedLogicalStart + (indexPacketHeaderSize + indexEntrySize)
                   - s1.sectionHeaderLogicalStart
               dataPhysicalOffset := s1.dataPhysicalOffset
               indexPhysicalOffset := s1.file.l2p s1.file.unusedLogicalStart }
              : SectionHeaderRec))] := by
      rw [hw2, sectionHeaderRecs_append, sectionHeaderRecs_append, hhdr1]
      rfl
    refine ⟨⟨?_, ?_⟩, ?_, ?_, ?_, ?_,
      s1.file.unusedLogicalStart, s1.file.l2p s1.file.unusedLogicalStart,
      { sectionLogicalLength :=
          s1.file.unusedLogicalStart + (indexPacketHeaderSize + indexEntrySize)
            - s1.sectionHeaderLogicalStart
        dataPhysicalOffset := s1.dataPhysicalOffset
        indexPhysicalOffset := s1.file.l2p s1.file.unusedLogicalStart },
      hirecs, ?_, ?_, rfl, ?_, hfrontier⟩
    · rw [hdp2]
      unfold firstDataOffset
      rw [hoffs]
      exact hd1
    · rw [hdc2, hoffs]
      exact hc1
    · rw [hisOpen2]
      exact f4.trans rfl
    · rw [hic2, hic1]
    · rw [hrc2]
      exact hrc
    · rw [hdc2]
      exact hm
    · rw [hhrecs, hshls1]
    · show s1.dataPhysicalOffset = firstDataOffset (finishClose s1).file.writes
      unfold firstDataOffset
      rw [hoffs]
      exact hd1
    · show s1.file.unusedLogicalStart + (indexPacketHeaderSize + indexEntrySize)
          - s1.sectionHeaderLogicalStart
        = (finishClose s1).file.unusedLogicalStart - s.sectionHeaderLogicalStart
      rw [hfrontier, hshls1]

theorem runOp_inv (op : Op) (s s1 : WState) (hInv : Inv s)
    (h : runOp op s = (none, s1)) :
    Inv s1 ∧ s1.recordCount = s.recordCount + opWriteCount op
    ∧ s.dataPacketsCount ≤ s1.dataPacketsCount
    ∧ (opIsWriteZero op = true → s.dataPacketsCount + 1 ≤ s1.dataPacketsCount) := by
  obtain ⟨hID, hIL⟩ := hInv
  cases op with
  | write fuel n =>
    simp only [runOp] at h
    obtain ⟨a, hF, c, d, e⟩ := write_invData fuel n s s1 hID h
    obtain ⟨g1, g2, g3, g4, g5⟩ := hF
    refine ⟨⟨a, ?_, ?_⟩, c, d, ?_⟩
    · intro ho
      obtain ⟨i1, i2, i3⟩ := hIL.1 (g4.symm.trans ho)
      exact ⟨g1.trans i1, g2.trans i2, g3.trans i3⟩
    · intro hc
      exact g3.trans (hIL.2 (g4.symm.trans hc))
    · intro hz
      have hn : n = 0 := by simpa [opIsWriteZero] using hz
      exact e hn
  | writeWithBuffers fuel bufs n =>
    simp only [runOp] at h
    unfold writeWithBuffers at h
    split at h
    · simp at h
    · rename_i sB heqSB
      have hsB := setBuffers_ok bufs s sB heqSB
      subst hsB
      obtain ⟨a, hF, c, d, e⟩ := write_invData fuel n { s with sbufs := bufs } s1
        (show InvData { s with sbufs := bufs } from hID) h
      obtain ⟨g1, g2, g3, g4, g5⟩ := hF
      refine ⟨⟨a, ?_, ?_⟩, c, d, ?_⟩
      · intro ho
        obtain ⟨i1, i2, i3⟩ := hIL.1 (g4.symm.trans ho)
        exact ⟨g1.trans i1, g2.trans i2, g3.trans i3⟩
      · intro hc
        exact g3.trans (hIL.2 (g4.symm.trans hc))
      · intro hz
        have hn : n = 0 := by simpa [opIsWriteZero] using hz
        exact e hn
  | close fuel =>
    simp only [runOp] at h
    by_cases ho : s.isOpen = true
    · obtain ⟨i1, i2, i3⟩ := hIL.1 ho
      obtain ⟨a, b, c, d, e, _⟩ := close_ok fuel s s1 ho hID i1 i2 h
      refine ⟨⟨a, ?_, ?_⟩, by rw [d]; simp [opWriteCount], e, ?_⟩
      · intro h1
        rw [b] at h1
        simp at h1
      · intro _
        rw [c, i3]
      · intro hz
        simp [opIsWriteZero] at hz
    · have ho2 : s.isOpen = false := by
        revert ho
        cases s.isOpen <;> simp
      rw [close_closed_eq fuel s ho2] at h
      obtain ⟨_, rfl⟩ : none = (none : Option Err)
          ∧ ({ s with file := { s.file with
                writerCount := s.file.writerCount - 1 } } : WState) = s1 :=
        Prod.mk.injEq _ _ _ _ ▸ h
      refine ⟨⟨hID, ?_, ?_⟩, Nat.add_zero _ ▸ rfl, Nat.le_refl _, ?_⟩
      · intro h1
        exact absurd (show s.isOpen = true from h1) (by rw [ho2]; simp)
      · intro _
        exact hIL.2 ho2
      · intro hz
        simp [opIsWriteZero] at hz

theorem runOps_inv : ∀ (ops : List Op) (s s1 : WState), Inv s →
    runOps ops s = (none, s1) →
    Inv s1 ∧ s1.recordCount = s.recordCount + sumWriteCounts ops
    ∧ s.dataPacketsCount ≤ s1.dataPacketsCount
    ∧ (containsWriteZero ops = true → 1 ≤ s1.dataPacketsCount) := by
  intro ops
  induction ops with
  | nil =>
    intro s s1 hInv h
    unfold runOps at h
    obtain ⟨_, rfl⟩ : none = (none : Option Err) ∧ s = s1 :=
      Prod.mk.injEq _ _ _ _ ▸ h
    exact ⟨hInv, by simp [sumWriteCounts], Nat.le_refl _,
      by simp [containsWriteZero]⟩
  | cons op ops ih =>
    intro s s1 hInv h
    unfold runOps at h
    split at h
    · simp at h
    · rename_i sM heq
      obtain ⟨aI, arc, amono, awz⟩ := runOp_inv op s sM hInv heq
      obtain ⟨AI, Arc, Amono, Awz⟩ := ih sM s1 aI h
      refine ⟨AI, ?_, Nat.le_trans amono Amono, ?_⟩
      · rw [Arc, arc]
        show s.recordCount + opWriteCount op + sumWriteCounts ops
            = s.recordCount + (opWriteCount op + sumWriteCounts ops)
        omega
      · intro hz
        rcases (by simpa [containsWriteZero] using hz :
            opIsWriteZero op = true ∨ containsWriteZero ops = true) with hz1 | hz2
        · exact Nat.le_trans (Nat.le_trans (by omega) (awz hz1)) Amono
        · exact Awz hz2

theorem mkWriter_inv (protoPaths : List String) (sbufs : List SDBuf)
    (bpr : String → Nat) (file0 : FileSt) (s0 : WState)
    (hw : file0.writes = [])
    (h : mkWriter protoPaths sbufs bpr file0 = .ok s0) :
    Inv s0 ∧ s0.isOpen = true ∧ s0.recordCount = 0
    ∧ s0.dataPacketsCount = 0 ∧ s0.file.writes = [] := by
  simp only [mkWriter] at h
  split at h
  · simp at h
  · split at h
    · simp at h
    · rename_i s1 heqSB
      obtain rfl := setBuffers_ok sbufs _ s1 heqSB
      split at h
      · simp at h
      · rename_i encs heqM
        injection h with h1
        subst h1
        refine ⟨⟨⟨?_, ?_⟩, ?_, ?_⟩, rfl, rfl, rfl, hw⟩
        · show (0 : Nat) = firstDataOffset file0.writes
          rw [hw]
          rfl
        · show (0 : Nat) = (dataPacketOffsets file0.writes).length
          rw [hw]
          rfl
        · intro _
          refine ⟨?_, ?_, rfl⟩
          · show indexPacketRecs file0.writes = []
            rw [hw]
            rfl
          · show sectionHeaderRecs file0.writes = []
            rw [hw]
            rfl
        · intro hc
          exact absurd (show (true : Bool) = false from hc) (by simp)

/-- **C1.** After `close()` returns on an open writer, the section header
written at `sectionHeaderLogicalStart` has `dataPhysicalOffset` equal to
the physical offset of the first emitted data packet (or 0 if no data
packet was emitted), `indexPhysicalOffset` equal to the physical offset
of the index packet, and `sectionLogicalLength` equal to the file's
unused-logical-start minus `sectionHeaderLogicalStart` — the distance
from the section header start to the end of the index packet. -/
theorem close_sectionHeader_fields
    (protoPaths : List String) (sbufs : List SDBuf) (bpr : String → Nat)
    (file0 : FileSt) (ops : List Op) (fuel : Nat) (s0 s1 s2 : WState)
    (hw : file0.writes = [])
    (hmk : mkWriter protoPaths sbufs bpr file0 = .ok s0)
    (hops : runOps ops s0 = (none, s1))
    (hopen : s1.isOpen = true)
    (hclose : close fuel s1 = (none, s2)) :
    ∃ idxLo idxPhys hdr,
      sectionHeaderRecs s2.file.writes = [(s1.sectionHeaderLogicalStart, hdr)]
      ∧ indexPacketRecs s2.file.writes
          = [(idxLo, idxPhys, indexPacketHeaderSize + indexEntrySize)]
      ∧ hdr.dataPhysicalOffset = firstDataOffset s2.file.writes
      ∧ hdr.indexPhysicalOffset = idxPhys
      ∧ hdr.sectionLogicalLength
          = s2.file.unusedLogicalStart - s1.sectionHeaderLogicalStart
      ∧ s2.file.unusedLogicalStart
          = idxLo + (indexPacketHeaderSize + indexEntrySize) := by
  obtain ⟨hInv0, _, _, _, _⟩ := mkWriter_inv protoPaths sbufs bpr file0 s0 hw hmk
  obtain ⟨hInv1, _, _, _⟩ := runOps_inv ops s0 s1 hInv0 hops
  obtain ⟨hID1, hIL1⟩ := hInv1
  obtain ⟨i1, i2, _⟩ := hIL1.1 hopen
  obtain ⟨_, _, _, _, _, idxLo, idxPhys, hdr, hA, hB, hC, hD, hE, hF⟩ :=
    close_ok fuel s1 s2 hopen hID1 i1 i2 hclose
  exact ⟨idxLo, idxPhys, hdr, hB, hA, hC, hD, hE, hF⟩

/-- Witness for C1: one-field writer, `write(5)` then `close`. -/
theorem close_sectionHeader_fields_witness :
    ∃ idxLo idxPhys hdr,
      sectionHeaderRecs
          (close 20 (runOps [Op.write 20 5] builtState).2).2.file.writes
        = [((runOps [Op.write 20 5] builtState).2.sectionHeaderLogicalStart, hdr)]
      ∧ indexPacketRecs
            (close 20 (runOps [Op.write 20 5] builtState).2).2.file.writes
          = [(idxLo, idxPhys, indexPacketHeaderSize + indexEntrySize)]
      ∧ hdr.dataPhysicalOffset = firstDataOffset
          (close 20 (runOps [Op.write 20 5] builtState).2).2.file.writes
      ∧ hdr.indexPhysicalOffset = idxPhys
      ∧ hdr.sectionLogicalLength
          = (close 20 (runOps [Op.write 20 5] builtState).2).2.file.unusedLogicalStart
            - (runOps [Op.write 20 5] builtState).2.sectionHeaderLogicalStart
      ∧ (close 20 (runOps [Op.write 20 5] builtState).2).2.file.unusedLogicalStart
          = idxLo + (indexPacketHeaderSize + indexEntrySize) :=
  close_sectionHeader_fields ["x"]
    [{ pathName := "x", capacity := 10, typeTag := 1, stride := 4 }] (fun _ => 1)
    { unusedLogicalStart := 100, l2p := fun l => l + 8
      writerCount := 0, writes := [] }
    [Op.write 20 5] 20 builtState (runOps [Op.write 20 5] builtState).2
    (close 20 (runOps [Op.write 20 5] builtState).2).2
    rfl rfl (Prod.ext (by decide) rfl) (by decide) (Prod.ext (by decide) rfl)

/-- Counterexample to **C2** as stated: constructing a writer and closing
it immediately is a successful trace ending in `close`, yet no data
packet is ever written — `dataPacketsCount` is 0 after `close` (only the
index packet exists; `close` has no zero-record branch of its own). -/
theorem immediate_close_zero_dataPackets :
    (close 20 builtState).1 = none
    ∧ (close 20 builtState).2.indexPacketsCount = 1
    ∧ (close 20 builtState).2.dataPacketsCount = 0 :=
  ⟨by decide, by decide, by decide⟩

/-- **C2**, amended: for every trace of successful operations ending in
`close`, exactly one index packet is written (`indexPacketsCount = 1`
after the close); and `dataPacketsCount ≥ 1` after the close *provided
the trace contains a zero-record `write` call* (whose packet the
zero-record branch guarantees).  A writer closed with no writes and no
encoder output has `dataPacketsCount = 0`: see the counterexample. -/
theorem close_indexPackets_one_dataPackets
    (protoPaths : List String) (sbufs : List SDBuf) (bpr : String → Nat)
    (file0 : FileSt) (ops : List Op) (fuel : Nat) (s0 s1 s2 : WState)
    (hw : file0.writes = [])
    (hmk : mkWriter protoPaths sbufs bpr file0 = .ok s0)
    (hops : runOps ops s0 = (none, s1))
    (hclose : close fuel s1 = (none, s2)) :
    s2.indexPacketsCount = 1
    ∧ (containsWriteZero ops = true → 1 ≤ s2.dataPacketsCount) := by
  obtain ⟨hInv0, _, _, _, _⟩ := mkWriter_inv protoPaths sbufs bpr file0 s0 hw hmk
  obtain ⟨hInv1, _, hmono1, hwz1⟩ := runOps_inv ops s0 s1 hInv0 hops
  by_cases ho : s1.isOpen = true
  · obtain ⟨i1, i2, i3⟩ := hInv1.2.1 ho
    obtain ⟨_, _, c, _, e, _⟩ := close_ok fuel s1 s2 ho hInv1.1 i1 i2 hclose
    refine ⟨by rw [c, i3], ?_⟩
    intro hz
    exact Nat.le_trans (hwz1 hz) e
  · have ho2 : s1.isOpen = false := by
      revert ho
      cases s1.isOpen <;> simp
    rw [close_closed_eq fuel s1 ho2] at hclose
    obtain ⟨_, rfl⟩ : none = (none : Option Err)
        ∧ ({ s1 with file := { s1.file with
              writerCount := s1.file.writerCount - 1 } } : WState) = s2 :=
      Prod.mk.injEq _ _ _ _ ▸ hclose
    refine ⟨hInv1.2.2 ho2, ?_⟩
    intro hz
    exact hwz1 hz

/-- Witness for the amended C2: a `write(0)` then `close` yields one index
packet and at least one data packet. -/
theorem close_indexPackets_one_dataPackets_witness :
    (close 20 (runOps [Op.write 20 0] builtState).2).2.indexPacketsCount = 1
    ∧ 1 ≤ (close 20 (runOps [Op.write 20 0] builtState).2).2.dataPacketsCount :=
  ⟨(close_indexPackets_one_dataPackets ["x"]
      [{ pathName := "x", capacity := 10, typeTag := 1, stride := 4 }] (fun _ => 1)
      { unusedLogicalStart := 100, l2p := fun l => l + 8
        writerCount := 0, writes := [] }
      [Op.write 20 0] 20 builtState (runOps [Op.write 20 0] builtState).2
      (close 20 (runOps [Op.write 20 0] builtState).2).2
      rfl rfl (Prod.ext (by decide) rfl) (Prod.ext (by decide) rfl)).1,
   (close_indexPackets_one_dataPackets ["x"]
      [{ pathName := "x", capacity := 10, typeTag := 1, stride := 4 }] (fun _ => 1)
      { unusedLogicalStart := 100, l2p := fun l => l + 8
        writerCount := 0, writes := [] }
      [Op.write 20 0] 20 builtState (runOps [Op.write 20 0] builtState).2
      (close 20 (runOps [Op.write 20 0] builtState).2).2
      rfl rfl (Prod.ext (by decide) rfl) (Prod.ext (by decide) rfl)).2 (by decide)⟩

/-- **C7.** For every sequence of successful `write(n)` operations, the
writer's `recordCount` equals the sum of the requested counts; in
particular a `write(0)` call emits a zero-record data packet, returns,
and leaves `recordCount` unchanged. -/
theorem recordCount_eq_sum_writes
    (protoPaths : List String) (sbufs : List SDBuf) (bpr : String → Nat)
    (file0 : FileSt) (ops : List Op) (s0 s1 : WState)
    (hw : file0.writes = [])
    (hmk : mkWriter protoPaths sbufs bpr file0 = .ok s0)
    (hops : runOps ops s0 = (none, s1)) :
    s1.recordCount = sumWriteCounts ops
    ∧ (∀ (fuelw : Nat) (s : WState), s.isOpen = true →
        write fuelw 0 s = (none, packetWriteZeroRecords s)
        ∧ (packetWriteZeroRecords s).recordCount = s.recordCount
        ∧ (packetWriteZeroRecords s).dataPacketsCount = s.dataPacketsCount + 1) := by
  constructor
  · obtain ⟨hInv0, _, hrc0, _, _⟩ := mkWriter_inv protoPaths sbufs bpr file0 s0 hw hmk
    obtain ⟨_, hrc, _, _⟩ := runOps_inv ops s0 s1 hInv0 hops
    rw [hrc, hrc0, Nat.zero_add]
  · intro fuelw s hopen
    refine ⟨?_, rfl, rfl⟩
    unfold write
    rw [if_neg (fun hc => hc hopen), if_pos rfl]

/-- Witness for C7: three writes of 3, 0 and 2 records yield
`recordCount = 5`, and the `write(0)` emits the zero-record packet. -/
theorem recordCount_eq_sum_writes_witness :
    (runOps [Op.write 20 3, Op.write 20 0, Op.write 20 2] builtState).2.recordCount
      = sumWriteCounts [Op.write 20 3, Op.write 20 0, Op.write 20 2]
    ∧ sumWriteCounts [Op.write 20 3, Op.write 20 0, Op.write 20 2] = 5
    ∧ write 20 0 builtState = (none, packetWriteZeroRecords builtState) :=
  ⟨(recordCount_eq_sum_writes ["x"]
      [{ pathName := "x", capacity := 10, typeTag := 1, stride := 4 }] (fun _ => 1)
      { unusedLogicalStart := 100, l2p := fun l => l + 8
        writerCount := 0, writes := [] }
      [Op.write 20 3, Op.write 20 0, Op.write 20 2] builtState
      (runOps [Op.write 20 3, Op.write 20 0, Op.write 20 2] builtState).2
      rfl rfl (Prod.ext (by decide) rfl)).1,
   by decide,
   ((recordCount_eq_sum_writes ["x"]
      [{ pathName := "x", capacity := 10, typeTag := 1, stride := 4 }] (fun _ => 1)
      { unusedLogicalStart := 100, l2p := fun l => l + 8
        writerCount := 0, writes := [] }
      [Op.write 20 3, Op.write 20 0, Op.write 20 2] builtState
      (runOps [Op.write 20 3, Op.write 20 0, Op.write 20 2] builtState).2
      rfl rfl (Prod.ext (by decide) rfl)).2 20 builtState (by decide)).1⟩

end e57
